import Mathlib

set_option maxRecDepth 4000

/-!
Verification of the `spring_explorer` analysis engine (files `explorer.py`,
`models.py`) against its natural-language specification.

The Python code is shallowly embedded: every function below is translated
from the source, with the source location recorded in its doc comment.
Python strings are modelled through their character lists so that every
operation reduces inside the kernel; Python dicts are modelled as
association lists in insertion order, and in-place mutation of objects is
modelled by explicit state passing.
-/

namespace SpringExplorer

/-! ### String helpers

Small character-list implementations of the Python string primitives used
by the embedded code (`split`, `in`, `startswith`, `endswith`, `lower`,
slicing, `' '.join`, `int(...)` parsing). -/

/-- Build a `String` from its characters. -/
def ofChars (l : List Char) : String := String.mk l

/-- Python `str.split(sep)` on character lists: keeps empty segments,
`"".split(sep) == [""]`. -/
def splitChars (sep : Char) : List Char → List (List Char)
  | [] => [[]]
  | c :: rest =>
    let r := splitChars sep rest
    if c = sep then [] :: r
    else
      match r with
      | [] => [[c]]
      | g :: gs => (c :: g) :: gs

/-- Python `s.split(sep)` for a one-character separator. -/
def pySplit (sep : Char) (s : String) : List String :=
  (splitChars sep s.data).map ofChars

/-- Python `pre in s` restricted to prefix position: `s.startswith(pre)`. -/
def startsWithStr (pre s : String) : Bool := pre.data.isPrefixOf s.data

/-- Python `s.endswith(suf)`. -/
def endsWithStr (suf s : String) : Bool := suf.data.isSuffixOf s.data

/-- Python `c in s` for a single character. -/
def containsChar (c : Char) (s : String) : Bool := s.data.contains c

/-- Python `needle in hay` (substring containment). -/
def substrOf (needle hay : String) : Bool :=
  (List.range (hay.data.length + 1)).any fun i => needle.data.isPrefixOf (hay.data.drop i)

/-- Python `s.lower()` (ASCII case folding, which covers the identifiers
the analyzer manipulates). -/
def strLower (s : String) : String := ofChars (s.data.map Char.toLower)

/-- Python `s[:n]` for `n ≥ 0`. -/
def takeStr (n : Nat) (s : String) : String := ofChars (s.data.take n)

/-- Python `s[n:]` for `n ≥ 0`. -/
def dropStr (n : Nat) (s : String) : String := ofChars (s.data.drop n)

/-- Python `sep.join(parts)`. -/
def joinWith (sep : String) : List String → String
  | [] => ""
  | [x] => x
  | x :: xs => x ++ sep ++ joinWith sep xs

/-- Digit-run validity for Python `int(...)`: nonempty, starts and ends
with a digit, single underscores only between digits. -/
def digitsOk : List Char → Bool
  | [] => false
  | [c] => c.isDigit
  | c :: '_' :: rest => c.isDigit && digitsOk rest
  | c :: c2 :: rest => c.isDigit && digitsOk (c2 :: rest)

/-- Numeric value of a valid digit run (underscores ignored). -/
def digitsVal (l : List Char) : Nat :=
  (l.filter fun c => c ≠ '_').foldl (fun a c => 10 * a + (c.toNat - 48)) 0

/-- Python `s.strip()` as used implicitly by `int(...)`. -/
def stripWs (s : String) : String :=
  ofChars (((s.data.dropWhile Char.isWhitespace).reverse.dropWhile Char.isWhitespace).reverse)

/-- Python `int(s)`: optional surrounding whitespace, optional sign, decimal
digits with grouping underscores; `none` models the `ValueError` raised on
any other input. -/
def pyInt (s : String) : Option Int :=
  match (stripWs s).data with
  | '+' :: ds => if digitsOk ds then some (Int.ofNat (digitsVal ds)) else none
  | '-' :: ds => if digitsOk ds then some (-(Int.ofNat (digitsVal ds))) else none
  | ds => if digitsOk ds then some (Int.ofNat (digitsVal ds)) else none

/-- Association-list lookup, modelling Python `dict.get` / `dict[...]`
(first binding wins; dicts built by the embedding never repeat a key). -/
def alookup {β : Type} (k : String) : List (String × β) → Option β
  | [] => none
  | p :: rest => if p.1 = k then some p.2 else alookup k rest

/-- Python `dict[k] = v`: overwrite in place, else append (insertion order
is preserved, as for Python dicts). -/
def dictSet {β : Type} (l : List (String × β)) (k : String) (v : β) : List (String × β) :=
  match l with
  | [] => [(k, v)]
  | p :: rest => if p.1 = k then (k, v) :: rest else p :: dictSet rest k v

/-! ### Tree Indexer (explorer.py `_build_project_structure`,
`_traverse_directory`, `_determine_file_type`, `get_node_by_index`) -/

/-- A directory listing as seen by the traversal: `os.listdir` output in
sorted order, each entry either a subdirectory with its own listing or a
regular file with its modification time (`os.path.getmtime`). -/
inductive FSEntry : Type where
  | dir (name : String) (entries : List FSEntry)
  | file (name : String) (mtime : Nat)

/-- `SpringBootExplorer.IGNORED_DIRS` (explorer.py:40). The separate
`path == self.cache_dir` test in the traversal is subsumed: the cache
directory's basename `.explorer_cache` is in this list. -/
def IGNORED_DIRS : List String :=
  [".git", "target", "build", "node_modules", ".idea", ".gradle", ".settings",
   ".classpath", ".project", "__pycache__", ".DS_Store", ".explorer_cache", "dist", "out"]

/-- Last-extension split of `os.path.splitext`: returns `(chars before the
last dot, chars from the last dot on)`, `none` when the name has no dot. -/
def splitextAux : List Char → Option (List Char × List Char)
  | [] => none
  | c :: rest =>
    match splitextAux rest with
    | some (b, s) => some (c :: b, s)
    | none => if c = '.' then some ([], c :: rest) else none

/-- `os.path.splitext(name)[1]`: the extension from the last dot, empty when
every character before that dot is itself a dot (leading-dot filenames). -/
def splitextExt (name : String) : String :=
  match splitextAux name.data with
  | some (b, s) => if b.any (fun c => c ≠ '.') then ofChars s else ""
  | none => ""

/-- The extension table of `_determine_file_type` (explorer.py:103-106). -/
def fileTypeTable : List (String × String) :=
  [(".java", "java"), (".properties", "config"), (".yml", "config"), (".yaml", "config"),
   (".xml", "xml"), (".html", "web"), (".css", "web"), (".js", "web"), (".jsp", "web"),
   (".ts", "web"), (".tsx", "web"), (".jsx", "web"), (".md", "doc"), (".txt", "doc"),
   (".png", "image"), (".jpg", "image"), (".jpeg", "image"), (".gif", "image"),
   (".svg", "image"), (".sql", "sql"), (".gradle", "build"), (".mvn", "build")]

/-- `_determine_file_type` (explorer.py:103-106). -/
def determine_file_type (filename : String) : String :=
  (alookup (strLower (splitextExt filename)) fileTypeTable).getD "other"

/-- One node of the index structure built by the traversal: the dicts
`{"index": ..., "name": ..., "type": "directory", "children": [...]}` and
`{"index": ..., "name": ..., "type": <file type>}` (paths omitted: they play
no role in indexing). -/
inductive FileNode : Type where
  | dir (index name : String) (children : List FileNode)
  | file (index name ftype : String)

/-- The `children` list of a node; file dicts have no `children` key, which
`get_node_by_index` reads as `[]` via `.get('children', [])`. -/
def childrenOf : FileNode → List FileNode
  | .dir _ _ cs => cs
  | .file _ _ _ => []

/-- The stored dotted index of a node. -/
def nodeIndex : FileNode → String
  | .dir i _ _ => i
  | .file i _ _ => i

/-- `_traverse_directory` (explorer.py:74-101): enumerate the sorted listing;
entry number `i` gets dotted index `parent_idx.(i+1)`; subdirectories whose
basename is blocklisted are skipped entirely (no child node is appended, but
the position `i` they occupied is still consumed by `enumerate`). -/
def traverse_directory (parentIdx : String) : Nat → List FSEntry → List FileNode
  | _, [] => []
  | i, e :: rest =>
    let idx := if parentIdx = "" then toString (i + 1) else parentIdx ++ "." ++ toString (i + 1)
    match e with
    | .dir name es =>
      if name ∈ IGNORED_DIRS then traverse_directory parentIdx (i + 1) rest
      else FileNode.dir idx name (traverse_directory idx 0 es)
             :: traverse_directory parentIdx (i + 1) rest
    | .file name _ =>
      FileNode.file idx name (determine_file_type name) :: traverse_directory parentIdx (i + 1) rest

/-- `_build_project_structure` (explorer.py:69-72): the root node has index
`"0"`; a blocklisted root name makes the top-level traversal return
immediately with no children (explorer.py:80-82). -/
def build_project_structure (rootName : String) (entries : List FSEntry) : FileNode :=
  FileNode.dir "0" rootName
    (if rootName ∈ IGNORED_DIRS then [] else traverse_directory "" 0 entries)

/-- The walking loop of `get_node_by_index` (explorer.py:1234-1248): convert
each dotted part with `int(...)`, require `0 < idx_num <= len(children)`,
descend to `children[idx_num - 1]`; `none` models both the `return None`
branches and the caught `ValueError`. -/
def indexWalk : FileNode → List String → Option FileNode
  | node, [] => some node
  | node, p :: ps =>
    match pyInt p with
    | none => none
    | some k =>
      if 0 < k ∧ k ≤ ((childrenOf node).length : Int) then
        match (childrenOf node)[k.toNat - 1]? with
        | some c => indexWalk c ps
        | none => none
      else none

/-- `get_node_by_index` (explorer.py:1226-1251): empty or non-string index →
`None`; `"0"` → the root; otherwise split on `'.'` and walk. -/
def get_node_by_index (root : FileNode) (index : String) : Option FileNode :=
  if index = "" then none
  else if index = "0" then some root
  else indexWalk root (pySplit '.' index)

/-- Specification-side description of a successful walk: every dotted part
parses as an integer `k` with `0 < k ≤ |children|` (1-based, in range) and
the walk descends to the `k`-th child. -/
inductive PathOk : FileNode → List String → FileNode → Prop where
  | nil (t : FileNode) : PathOk t [] t
  | step {t : FileNode} {p : String} {ps : List String} {k : Int} {c n : FileNode} :
      pyInt p = some k → 0 < k → k ≤ ((childrenOf t).length : Int) →
      (childrenOf t)[k.toNat - 1]? = some c → PathOk c ps n → PathOk t (p :: ps) n

/-! ### Cache validation walk (explorer.py `_load_from_cache`, lines 857-882) -/

/-- `filename.endswith(('.java', '.properties', '.yml', '.yaml', '.xml'))`
(explorer.py:868,874). -/
def relevantExt (name : String) : Bool :=
  endsWithStr ".java" name || endsWithStr ".properties" name || endsWithStr ".yml" name ||
  endsWithStr ".yaml" name || endsWithStr ".xml" name

/-- The directory pruning of the validation walk (explorer.py:872):
`d not in self.IGNORED_DIRS and not d.startswith('.')` — note the extra
dot-prefix rule, absent from the Tree Indexer's traversal. -/
def validationPrunes (d : String) : Bool :=
  d ∈ IGNORED_DIRS || startsWithStr "." d

/-- The `os.walk` maximum of `os.path.getmtime` over files with a tracked
extension (explorer.py:866-878), pruning directories per
`validationPrunes`; `0` is the initial `latest_modification_time`. -/
def latest_mod_tracked : List FSEntry → Nat
  | [] => 0
  | .file n m :: rest => max (if relevantExt n then m else 0) (latest_mod_tracked rest)
  | .dir d es :: rest =>
    max (if validationPrunes d then 0 else latest_mod_tracked es) (latest_mod_tracked rest)

/-- The validation portion of `_load_from_cache` (explorer.py:857-882):
the cache is accepted iff the stored root equals the current root, the
stored timestamp is present (`≠ 0`), and no tracked file reached by the
pruned walk is newer than the stored timestamp. -/
def cache_validation_accepts (storedRoot currentRoot : String) (storedTs : Nat)
    (fs : List FSEntry) : Bool :=
  storedRoot == currentRoot && storedTs != 0 && latest_mod_tracked fs ≤ storedTs

/-- Modelled from the claim's words: the walk the claim asserts, honoring
exactly the Tree Indexer's directory blocklist (no dot-prefix rule). Used
only to compare the claimed walk with the implemented one. -/
def claimTrackedWalkLatest : List FSEntry → Nat
  | [] => 0
  | .file n m :: rest => max (if relevantExt n then m else 0) (claimTrackedWalkLatest rest)
  | .dir d es :: rest =>
    max (if d ∈ IGNORED_DIRS then 0 else claimTrackedWalkLatest es) (claimTrackedWalkLatest rest)

/-- Specification-side reachability: the tracked files the implemented
validation walk actually visits (directories pruned by blocklist or leading
dot are not descended into). -/
inductive TrackedReachable : List FSEntry → String → Nat → Prop where
  | here {es : List FSEntry} {n : String} {m : Nat} :
      FSEntry.file n m ∈ es → relevantExt n = true → TrackedReachable es n m
  | deeper {es : List FSEntry} {d : String} {sub : List FSEntry} {n : String} {m : Nat} :
      FSEntry.dir d sub ∈ es → validationPrunes d = false →
      TrackedReachable sub n m → TrackedReachable es n m

/-! ### Data model (models.py) and cache snapshot (explorer.py 813-847) -/

/-- `Field` (models.py:14-17): annotations and a non-owning parent
back-reference (dropped here: the field is stored inside its component). -/
structure FieldRec : Type where
  name : String
  field_type : String
  modifiers : List String
  annotations : List String
deriving Repr, DecidableEq

/-- `Field.__str__` (models.py:17). -/
def fieldStr (f : FieldRec) : String :=
  joinWith " " f.modifiers ++ " " ++ f.field_type ++ " " ++ f.name

/-- `Method` (models.py:19-26), persistable attributes. The non-owning
`parent_component` reference is modelled by the parent's FQN and name (the
two attributes the engine reads through it); `calls`/`called_by` hold the
method keys of the referenced `Method` objects; the raw
`method_invocations` captures are transient and modelled separately where
the call-graph builder consumes them. -/
structure MethodRec : Type where
  name : String
  signature : String
  parent_fqn : String
  parent_name : String
  annotations : List String
  modifiers : List String
  return_type : Option String
  parameters : List String
  exceptions : List String
  start_line : Int
  end_line : Int
  calls : List String
  called_by : List String
deriving Repr, DecidableEq

/-- `SpringBootComponent` (models.py:6-12). `extends` is `None` until the
extractor sets it (`Option`); `methods` and `fields` are the owned dicts.
(`extends` is a Lean keyword, hence the trailing underscore.) -/
structure Component : Type where
  name : String
  file_path : String
  component_type : String
  index : String
  methods : List (String × MethodRec)
  fields : List (String × FieldRec)
  imports : List String
  extends_ : Option (List String)
  implements : List String
  annotations : List String
  package : String
  inner_classes : List String
  generics : List String
  fully_qualified_name : String
deriving Repr, DecidableEq

/-- Image of `Method.to_dict` (models.py:26). -/
structure MethodDict : Type where
  name : String
  signature : String
  annotations : List String
  modifiers : List String
  return_type : Option String
  parameters : List String
  exceptions : List String
  start_line : Int
  end_line : Int
  calls : List String
  called_by : List String
deriving Repr, DecidableEq

/-- Image of `SpringBootComponent.to_dict` (models.py:12): methods mapped
to their dicts, fields to their `str(...)` rendering, everything else
copied (`source_code` never exists on the model here). -/
structure CompDict : Type where
  name : String
  file_path : String
  component_type : String
  index : String
  methods : List (String × MethodDict)
  fields : List (String × String)
  imports : List String
  extends_ : Option (List String)
  implements : List String
  annotations : List String
  package : String
  inner_classes : List String
  generics : List String
  fully_qualified_name : String
deriving Repr, DecidableEq

/-- One entry of the string/identifier index (explorer.py:784,790). -/
structure StringIndexEntry : Type where
  fqn : String
  path : String
  original : String
  entry_type : String
deriving Repr, DecidableEq

/-- `str(c)` for a `Method` reference (models.py:25), resolved through the
method store; states produced by the analyzer always find the key. -/
def methodDisplay (methodsStore : List (String × MethodRec)) (key : String) : String :=
  match alookup key methodsStore with
  | some m => m.parent_name ++ "." ++ m.name ++ m.signature
  | none => key

/-- `Method.to_dict` (models.py:26). -/
def method_to_dict (methodsStore : List (String × MethodRec)) (m : MethodRec) : MethodDict :=
  { name := m.name, signature := m.signature, annotations := m.annotations,
    modifiers := m.modifiers, return_type := m.return_type, parameters := m.parameters,
    exceptions := m.exceptions, start_line := m.start_line, end_line := m.end_line,
    calls := m.calls.map (methodDisplay methodsStore),
    called_by := m.called_by.map (methodDisplay methodsStore) }

/-- `SpringBootComponent.to_dict` (models.py:12). -/
def component_to_dict (methodsStore : List (String × MethodRec)) (c : Component) : CompDict :=
  { name := c.name, file_path := c.file_path, component_type := c.component_type,
    index := c.index, methods := c.methods.map (fun km => (km.1, method_to_dict methodsStore km.2)),
    fields := c.fields.map (fun kf => (kf.1, fieldStr kf.2)),
    imports := c.imports, extends_ := c.extends_, implements := c.implements,
    annotations := c.annotations, package := c.package, inner_classes := c.inner_classes,
    generics := c.generics, fully_qualified_name := c.fully_qualified_name }

/-- The state of a fully analyzed project, as `_save_to_cache` reads it. -/
structure AnalyzerState : Type where
  project_path : String
  components : List (String × Component)
  methods : List (String × MethodRec)
  index_structure : Option FileNode
  package_structure : List (String × List String)
  string_index : List (String × List StringIndexEntry)
  call_graph_edges : List (String × String)
  parse_errors : List (String × String)

/-- The pickled snapshot `cache_data` (explorer.py:833-843); the pickle
round trip itself is the identity, so saving followed by loading passes
this value to the reconstruction unchanged. -/
structure CacheData : Type where
  project_path : String
  timestamp : Nat
  components : List (String × CompDict)
  methods : List (String × MethodDict)
  index_structure : Option FileNode
  package_structure : List (String × List String)
  string_index : List (String × List StringIndexEntry)
  call_graph_edges : List (String × String)
  parse_errors : List (String × String)

/-- `_save_to_cache` (explorer.py:813-847): serialize components and
methods through their `to_dict`s, stamp the current time. -/
def save_to_cache_data (st : AnalyzerState) (now : Nat) : CacheData :=
  { project_path := st.project_path, timestamp := now,
    components := st.components.map (fun kc => (kc.1, component_to_dict st.methods kc.2)),
    methods := st.methods.map (fun km => (km.1, method_to_dict st.methods km.2)),
    index_structure := st.index_structure, package_structure := st.package_structure,
    string_index := st.string_index, call_graph_edges := st.call_graph_edges,
    parse_errors := st.parse_errors }

/-! ### Cache load reconstruction (explorer.py `_load_from_cache`, 884-998) -/

/-- Python `s[0].islower()` (false on empty only where the code guards). -/
def headIsLower (s : String) : Bool :=
  match s.data with
  | [] => false
  | c :: _ => c.isLower

/-- Python `s[0].isupper()`. -/
def headIsUpper (s : String) : Bool :=
  match s.data with
  | [] => false
  | c :: _ => c.isUpper

/-- The backward scan of explorer.py:931-937 looking for the method-name
part of a method key: examine index `i` from `len(parts)-1` down to `1`;
break at the first `i` whose part contains `'('`, or starts lowercase while
the previous part starts uppercase. Result: `some (some i)` on a break at
`i`, `some none` when the loop runs out (`split_point == -1`), `none` when
Python would raise `IndexError` on `fqn_parts[i-1][0]` (empty previous
part), which the enclosing `except` turns into skipping the method. -/
def splitPointScan (parts : List String) : Nat → Option (Option Nat)
  | 0 => some none
  | i + 1 =>
    let part := ((parts.get? (i + 1)).getD "")
    let prev := ((parts.get? i).getD "")
    if containsChar '(' part then some (some (i + 1))
    else if part ≠ "" ∧ headIsLower part then
      if prev = "" then none
      else if headIsUpper prev then some (some (i + 1))
      else splitPointScan parts i
    else splitPointScan parts i

/-- Parent-FQN derivation for a cached method key (explorer.py:924-941):
split on `'.'`, scan backward for the split point, fall back to dropping
the final part. `none` models the caught reconstruction exception (method
skipped). -/
def parent_fqn_of (method_key : String) : Option String :=
  let parts := pySplit '.' method_key
  match splitPointScan parts (parts.length - 1) with
  | none => none
  | some (some sp) => some (joinWith "." (parts.take sp))
  | some none => some (joinWith "." (parts.take (parts.length - 1)))

/-- Component reconstruction (explorer.py:901-917). `fields` and `methods`
are initialized empty; the adjacent comment promises they are "populated
when Methods are loaded below", but no code ever repopulates `fields`. -/
def componentFromDict (_fqn : String) (d : CompDict) : Component :=
  { name := d.name, file_path := d.file_path, component_type := d.component_type,
    index := d.index, methods := [], fields := [], imports := d.imports,
    extends_ := d.extends_, implements := d.implements, annotations := d.annotations,
    package := d.package, inner_classes := [], generics := d.generics,
    fully_qualified_name := d.fully_qualified_name }

/-- Method reconstruction (explorer.py:946-955): `calls`/`called_by` start
empty, to be rebuilt from the persisted graph edges. -/
def methodFromDict (d : MethodDict) (parentFqn parentName : String) : MethodRec :=
  { name := d.name, signature := d.signature, parent_fqn := parentFqn,
    parent_name := parentName, annotations := d.annotations, modifiers := d.modifiers,
    return_type := d.return_type, parameters := d.parameters, exceptions := d.exceptions,
    start_line := d.start_line, end_line := d.end_line, calls := [], called_by := [] }

/-- One step of the method-reconstruction loop (explorer.py:922-972): derive
the parent FQN, look the parent up, construct the method, register it in
the method store and in the parent component's method dict (constructors
use the class name as display key). A failed derivation or missing parent
skips the entry. -/
def loadMethodStep (acc : List (String × Component) × List (String × MethodRec))
    (entry : String × MethodDict) : List (String × Component) × List (String × MethodRec) :=
  match parent_fqn_of entry.1 with
  | none => acc
  | some pf =>
    match alookup pf acc.1 with
    | none => acc
    | some pc =>
      let m := methodFromDict entry.2 pf pc.name
      let cmk := if entry.2.name = "<init>" then pc.name ++ entry.2.signature
                 else entry.2.name ++ entry.2.signature
      (dictSet acc.1 pf { pc with methods := dictSet pc.methods cmk m },
       dictSet acc.2 entry.1 m)

/-- Guarded append used when rebuilding `Method.calls` (explorer.py:990-992). -/
def addCallTo (ms : List (String × MethodRec)) (u v : String) : List (String × MethodRec) :=
  ms.map fun km =>
    if km.1 = u then
      (km.1, { km.2 with calls := if v ∈ km.2.calls then km.2.calls else km.2.calls ++ [v] })
    else km

/-- Guarded append used when rebuilding `Method.called_by`
(explorer.py:993-995). -/
def addCallerTo (ms : List (String × MethodRec)) (v u : String) : List (String × MethodRec) :=
  ms.map fun km =>
    if km.1 = v then
      (km.1, { km.2 with called_by := if u ∈ km.2.called_by then km.2.called_by
                                      else km.2.called_by ++ [u] })
    else km

/-- One edge of the rebuild loop (explorer.py:984-995): both endpoints must
be loaded methods, then the callee joins the caller's `calls` and the
caller joins the callee's `called_by` (each with an already-present check). -/
def rebuildStep (ms : List (String × MethodRec)) (e : String × String) :
    List (String × MethodRec) :=
  if (alookup e.1 ms).isSome ∧ (alookup e.2 ms).isSome then
    addCallerTo (addCallTo ms e.1 e.2) e.2 e.1
  else ms

/-- `networkx.DiGraph.add_edges_from`: duplicate edges collapse; insertion
order of first occurrences is kept. -/
def dedupEdges (es : List (String × String)) : List (String × String) :=
  es.foldl (fun acc e => if e ∈ acc then acc else acc ++ [e]) []

/-- The state reconstructed by a successful cache load. `methods` models the
method store after the `calls`/`called_by` rebuild; the copies of methods
stored inside components share identity with the store in Python and are
reached through it here. -/
structure LoadedState : Type where
  components : List (String × Component)
  methods : List (String × MethodRec)
  graph_nodes : List String
  graph_edges : List (String × String)
  index_structure : Option FileNode
  package_structure : List (String × List String)
  string_index : List (String × List StringIndexEntry)
  parse_errors : List (String × String)

/-- Component reconstruction loop (explorer.py:899-917), into the cleared
`self.components`. -/
def loadComps0 (data : CacheData) : List (String × Component) :=
  data.components.foldl (fun acc kd => dictSet acc kd.1 (componentFromDict kd.1 kd.2)) []

/-- Method reconstruction loop (explorer.py:920-972) over the cleared
method store, also linking methods into their parent components. -/
def loadPair (data : CacheData) : List (String × Component) × List (String × MethodRec) :=
  data.methods.foldl loadMethodStep (loadComps0 data, [])

/-- The nodes of the reloaded graph: exactly the successfully loaded
method keys (explorer.py:975-977). -/
def loadNodes (data : CacheData) : List String := (loadPair data).2.map Prod.fst

/-- `valid_edges` (explorer.py:980): persisted edges filtered to current
nodes. -/
def loadValidEdges (data : CacheData) : List (String × String) :=
  data.call_graph_edges.filter fun e => e.1 ∈ loadNodes data ∧ e.2 ∈ loadNodes data

/-- The reloaded edge set (explorer.py:981, `add_edges_from` dedups). -/
def loadEdges (data : CacheData) : List (String × String) :=
  dedupEdges (loadValidEdges data)

/-- The reconstruction phase of `_load_from_cache` (explorer.py:884-998),
entered once validation has accepted the snapshot: rebuild components,
then methods (parent re-derived from the key), then the call graph
restricted to loaded methods, then each method's call lists from the
graph's edges. -/
def load_from_cache_data (data : CacheData) : LoadedState :=
  { components := (loadPair data).1
    methods := (loadEdges data).foldl rebuildStep (loadPair data).2
    graph_nodes := loadNodes data
    graph_edges := loadEdges data
    index_structure := data.index_structure
    package_structure := data.package_structure
    string_index := data.string_index
    parse_errors := data.parse_errors }

/-! ### Symbol Resolver (explorer.py `_resolve_type_name`, 492-557) -/

/-- The `java.lang` implicit-import table (explorer.py:545). -/
def javaLangTypes : List String :=
  ["String", "Object", "Integer", "Boolean", "Long", "Double", "Float", "Character",
   "Byte", "Short", "Void", "Class", "System", "Math", "Thread", "Runnable", "Exception",
   "RuntimeException", "Error", "Throwable", "Override", "Deprecated", "SuppressWarnings"]

/-- The common `java.util` table (explorer.py:550). -/
def javaUtilTypes : List String :=
  ["List", "Map", "Set", "Collection", "Optional", "ArrayList", "HashMap", "HashSet"]

/-- `'$'.join(fqn.split('$')[:-1])` (explorer.py:514): drop the last
`$`-segment to reach the enclosing type's FQN. -/
def dropLastDollar (s : String) : String := joinWith "$" ((pySplit '$' s).dropLast)

/-- The inner-class scope walk (explorer.py:505-517): starting from the
context component, test `fqn$base` against the store, else step to the
enclosing component by FQN. The fuel bounds the walk (one step per store
entry suffices for any store whose keys match the stored FQNs, as the
extractor guarantees). -/
def innerScopeScan (components : List (String × Component)) (baseName : String) :
    Nat → Option Component → Option String
  | _, none => none
  | 0, some _ => none
  | fuel + 1, some c =>
    let cand := c.fully_qualified_name ++ "$" ++ baseName
    if (alookup cand components).isSome then some cand
    else if containsChar '$' c.fully_qualified_name then
      innerScopeScan components baseName fuel
        (alookup (dropLastDollar c.fully_qualified_name) components)
    else none

/-- Direct single-type import match (explorer.py:521-523): first import
ending in `.base`. -/
def firstImportHit (baseName : String) : List String → Option String
  | [] => none
  | imp :: rest =>
    if endsWithStr ("." ++ baseName) imp then some imp else firstImportHit baseName rest

/-- Wildcard import match (explorer.py:533-538): first `pkg.*` import whose
`pkg.base` is a known component. -/
def firstWildcardHit (components : List (String × Component)) (baseName : String) :
    List String → Option String
  | [] => none
  | imp :: rest =>
    if endsWithStr ".*" imp then
      let cand := ofChars imp.data.dropLast ++ baseName
      if (alookup cand components).isSome then some cand
      else firstWildcardHit components baseName rest
    else firstWildcardHit components baseName rest

/-- The base type name before any generic arguments,
`type_name.split('<', 1)[0]` (explorer.py:498). -/
def baseOf (s : String) : String := ofChars (s.data.takeWhile fun c => c ≠ '<')

/-- `type_name[len(base_name):]` when a `<` is present, `""` otherwise
(explorer.py:499); dropping the base prefix covers both cases. -/
def genericOf (s : String) : String := ofChars (s.data.drop (baseOf s).data.length)

/-- `_resolve_type_name` (explorer.py:492-557): return dotted base names
verbatim, then try inner scopes, direct imports, same package, wildcard
imports, the `java.lang` table, the `java.util` table, and finally return
the input unchanged. -/
def resolve_type_name (components : List (String × Component)) (type_name : String)
    (ctx : Component) : String :=
  if containsChar '.' (baseOf type_name) then type_name
  else
    match innerScopeScan components (baseOf type_name) (components.length + 1) (some ctx) with
    | some fqn => fqn ++ genericOf type_name
    | none =>
      match firstImportHit (baseOf type_name) ctx.imports with
      | some imp => imp ++ genericOf type_name
      | none =>
        if ctx.package ≠ "" ∧
            (alookup (ctx.package ++ "." ++ baseOf type_name) components).isSome then
          ctx.package ++ "." ++ baseOf type_name ++ genericOf type_name
        else
          match firstWildcardHit components (baseOf type_name) ctx.imports with
          | some cand => cand ++ genericOf type_name
          | none =>
            if baseOf type_name ∈ javaLangTypes then
              "java.lang." ++ baseOf type_name ++ genericOf type_name
            else if baseOf type_name ∈ javaUtilTypes then
              "java.util." ++ baseOf type_name ++ genericOf type_name
            else type_name

/-! ### Call Graph Builder (explorer.py `_build_call_graph`, 560-605) -/

/-- A method as the call-graph builder sees it: its raw invocation captures
(`Method.method_invocations`). The invocation node type is abstract: the
builder hands each capture to the resolver and consumes only the list of
target keys it returns. -/
structure BMethod (Inv : Type) : Type where
  invocations : List Inv

/-- The call-graph state: the graph plus the `Method.calls` /
`Method.called_by` lists it mutates, keyed by method key (each key holds
one distinct `Method` object, so object identity coincides with key
identity). -/
structure CGState : Type where
  nodes : List String
  edges : List (String × String)
  calls : String → List String
  called_by : String → List String

/-- explorer.py:561: a fresh `DiGraph` holding every method key as a node,
before any edge is inserted; all call lists are empty right after parsing. -/
def cgInit (keys : List String) : CGState :=
  { nodes := keys, edges := [], calls := fun _ => [], called_by := fun _ => [] }

/-- explorer.py:579-593: for one resolved target `v` of an invocation in
`u` — add the edge only if `v` is a known node and the edge is not present
yet, and in that case record the call on both methods (each guarded by an
already-present check). -/
def addResolvedEdge (st : CGState) (u v : String) : CGState :=
  if v ∈ st.nodes ∧ (u, v) ∉ st.edges then
    { nodes := st.nodes
      edges := st.edges ++ [(u, v)]
      calls := fun k =>
        if k = u then (if v ∈ st.calls u then st.calls u else st.calls u ++ [v]) else st.calls k
      called_by := fun k =>
        if k = v then (if u ∈ st.called_by v then st.called_by v else st.called_by v ++ [u])
        else st.called_by k }
  else st

/-- The flattened iteration order of explorer.py:563-593: every method in
store order, every invocation of the method, every target key the resolver
returns for it, as `(caller key, target key)` events. -/
def cgEvents {Inv : Type} (ms : List (String × BMethod Inv))
    (rv : String → Inv → List String) : List (String × String) :=
  ms.flatMap fun km => (km.2.invocations.flatMap (rv km.1)).map fun t => (km.1, t)

/-- `_build_call_graph` (explorer.py:560-605), with the per-invocation
resolver (`_resolve_method_invocation`) abstracted as `rv`. -/
def build_call_graph {Inv : Type} (ms : List (String × BMethod Inv))
    (rv : String → Inv → List String) : CGState :=
  (cgEvents ms rv).foldl (fun st e => addResolvedEdge st e.1 e.2) (cgInit (ms.map Prod.fst))

/-! ### Hierarchy search (explorer.py `_find_method_in_hierarchy`, 681-754) -/

/-- The supertype list gathered at explorer.py:714-721: the resolved
`extends` entries (a missing value contributes nothing) followed by the
`implements` entries. -/
def supertypesOf (c : Component) : List String :=
  (c.extends_.getD []) ++ c.implements

/-- The per-FQN match collection of explorer.py:695-709: method keys that
start with `fqn.name(`, whose method's name equals the member name and
whose parameter count equals the argument count unless that count is the
unknown sentinel `-1`. -/
def hier_matches_at (methods : List (String × MethodRec)) (fqn mname : String)
    (argc : Int) : List String :=
  (methods.filter fun km =>
    startsWithStr (fqn ++ "." ++ mname ++ "(") km.1 && km.2.name == mname &&
      (argc == -1 || (km.2.parameters.length : Int) == argc)).map Prod.fst

/-- The fixed `java.lang.Object` signature table of explorer.py:740-746,
keyed by `(method name, arg count)`. -/
def objTableLookup (mname : String) (argc : Int) : Option String :=
  if mname = "equals" ∧ argc = 1 then some "java.lang.Object.equals(java.lang.Object)"
  else if mname = "hashCode" ∧ argc = 0 then some "java.lang.Object.hashCode()"
  else if mname = "toString" ∧ argc = 0 then some "java.lang.Object.toString()"
  else if mname = "getClass" ∧ argc = 0 then some "java.lang.Object.getClass()"
  else none

/-- The BFS loop of explorer.py:690-734, returning the visit order and the
collected matches. Empty or already-visited FQNs are skipped; a visited
FQN contributes its matches, then either enqueues its supertypes (known
component) or — unknown or `java.*` FQN while no match has been found —
enqueues `java.lang.Object` once. The fuel argument only bounds the
recursion; `hierFuel` below always suffices. -/
def hierLoop (components : List (String × Component)) (methods : List (String × MethodRec))
    (mname : String) (argc : Int) :
    Nat → List String → List String → List String → List String × List String
  | 0, _, visited, hits => (visited, hits)
  | _ + 1, [], visited, hits => (visited, hits)
  | fuel + 1, fqn :: queue, visited, hits =>
    if fqn = "" ∨ fqn ∈ visited then hierLoop components methods mname argc fuel queue visited hits
    else
      let visited' := visited ++ [fqn]
      let hits' := (hier_matches_at methods fqn mname argc).foldl
        (fun acc k => if k ∈ acc then acc else acc ++ [k]) hits
      match alookup fqn components with
      | some comp =>
        hierLoop components methods mname argc fuel
          (queue ++ (supertypesOf comp).filter fun s => s ≠ "" ∧ s ∉ visited')
          visited' hits'
      | none =>
        if (¬ startsWithStr "java." fqn = true ∨
            (startsWithStr "java." fqn = true ∧ fqn ≠ "java.lang.Object")) ∧ hits' = [] then
          hierLoop components methods mname argc fuel
            (if "java.lang.Object" ∈ visited' then queue else queue ++ ["java.lang.Object"])
            visited' hits'
        else hierLoop components methods mname argc fuel queue visited' hits'

/-- A fuel bound sufficient for `hierLoop`: every queue push is either the
initial FQN, a supertype occurrence, or one `java.lang.Object` per visited
FQN, and every iteration pops one element. -/
def hierFuel (components : List (String × Component)) : Nat :=
  4 + 2 * components.foldl (fun a kc => a + (supertypesOf kc.2).length) 0 +
    2 * components.length

/-- `_find_method_in_hierarchy` (explorer.py:681-754): run the BFS from the
start FQN, then — when nothing matched but `java.lang.Object` was visited —
consult the fixed Object-method table, returning its key only if present in
the method store. -/
def find_method_in_hierarchy (components : List (String × Component))
    (methods : List (String × MethodRec)) (start_fqn mname : String) (argc : Int) :
    List String :=
  let r := hierLoop components methods mname argc (hierFuel components) [start_fqn] [] []
  if r.2 = [] ∧ "java.lang.Object" ∈ r.1 then
    match objTableLookup mname argc with
    | some k => if (alookup k methods).isSome then [k] else []
    | none => []
  else r.2

/-- Modelled from the claim's words: the FQNs reachable from the target
through the resolved `extends`/`implements` chain alone — the set the claim
describes as "the resolved extends/implements chain starting at the
target". Used only to compare the claimed hierarchy with the implemented
walk. -/
def chainClosureSpec (components : List (String × Component)) :
    Nat → List String → List String → List String
  | 0, _, acc => acc
  | _ + 1, [], acc => acc
  | fuel + 1, f :: q, acc =>
    if f ∈ acc then chainClosureSpec components fuel q acc
    else
      chainClosureSpec components fuel
        (q ++ (match alookup f components with | some c => supertypesOf c | none => []))
        (acc ++ [f])

/-! ### Method-flow key resolution (explorer.py `analyze_method_flow`,
1066-1084) -/

/-- Outcome of resolving a method-flow query key: the three shapes the
code can produce before assembling the result dictionary — `None`, the
`{"multiple_matches": [...]}` dictionary, or a resolved `(canonical key,
method)` pair. -/
inductive FlowResult : Type where
  | notFound
  | multipleMatches (ms : List MethodRec)
  | found (canonicalKey : String) (m : MethodRec)
deriving Repr, DecidableEq

/-- The key-resolution phase of `analyze_method_flow` (explorer.py:
1066-1084): exact dictionary hit first; otherwise the case-insensitive
containment candidates `key_lower in k.lower()`; one candidate is used, two
or more return the explicit `multiple_matches` list, zero return `None`.
(The subsequent result assembly never raises either; it only reads the
resolved method.) -/
def analyze_method_flow_resolve (methods : List (String × MethodRec))
    (method_key : String) : FlowResult :=
  match alookup method_key methods with
  | some m => .found method_key m
  | none =>
    match methods.filter fun km => substrOf (strLower method_key) (strLower km.1) with
    | [] => .notFound
    | [km] => .found km.1 km.2
    | km :: km2 :: rest => .multipleMatches ((km :: km2 :: rest).map Prod.snd)

/-! ### Per-file parsing batch (explorer.py `_parse_java_file` 167-207,
`_parse_java_files_sequential` 118-128) -/

/-- What processing one file can do, as decided by reading the file and
running `javalang` over its text — both external to the engine, so supplied
as an oracle: an unreadable file records its read-error entry; content the
parser rejects carries the error kind (`LexerError`, `JavaSyntaxError`, ...),
the optional position line and the message; the catch-all of
explorer.py:204-207 records kind and message; successful parses yield the
extracted components and methods. -/
inductive ParseOutcome : Type where
  | readFailure (entry : String)
  | rejected (kind : String) (line : Option Nat) (msg : String)
  | unexpectedFailure (kind : String) (msg : String)
  | parsed (comps : List (String × Component)) (ms : List (String × MethodRec))

/-- `e.pos.line if hasattr(e, 'pos') and e.pos else '?'` (explorer.py:197). -/
def lineStr : Option Nat → String
  | some l => toString l
  | none => "?"

/-- The store fragments a parsing batch accumulates. -/
structure BatchState : Type where
  components : List (String × Component)
  methods : List (String × MethodRec)
  parse_errors : List (String × String)

/-- `_parse_java_file` (explorer.py:167-207) for one file: read failures
and parse failures append exactly one `(path, message)` entry — a rejected
parse records `kind at Lline: message[:150]` — and successful parses
register their extracted declarations; the function always returns to the
batch loop. -/
def parse_java_file (oracle : String → ParseOutcome) (st : BatchState) (path : String) :
    BatchState :=
  match oracle path with
  | .readFailure entry => { st with parse_errors := st.parse_errors ++ [(path, entry)] }
  | .rejected kind line msg =>
    { st with parse_errors :=
        st.parse_errors ++ [(path, kind ++ " at L" ++ lineStr line ++ ": " ++ takeStr 150 msg)] }
  | .unexpectedFailure kind msg =>
    { st with parse_errors :=
        st.parse_errors ++ [(path, "Unexpected parsing error: " ++ kind ++ "-" ++ msg)] }
  | .parsed comps ms =>
    { st with
      components := comps.foldl (fun acc kc => dictSet acc kc.1 kc.2) st.components
      methods := ms.foldl (fun acc km => dictSet acc km.1 km.2) st.methods }

/-- `_parse_java_files_sequential` (explorer.py:118-128): every file in
order, unconditionally. -/
def parse_java_files_sequential (oracle : String → ParseOutcome) (st : BatchState)
    (files : List String) : BatchState :=
  files.foldl (parse_java_file oracle) st

/-- The error entries one file contributes, in isolation. -/
def fileErrorEntries (oracle : String → ParseOutcome) (path : String) :
    List (String × String) :=
  match oracle path with
  | .readFailure entry => [(path, entry)]
  | .rejected kind line msg =>
    [(path, kind ++ " at L" ++ lineStr line ++ ": " ++ takeStr 150 msg)]
  | .unexpectedFailure kind msg =>
    [(path, "Unexpected parsing error: " ++ kind ++ "-" ++ msg)]
  | .parsed _ _ => []

/-- The component registrations one file contributes, in isolation. -/
def fileComponentContribs (oracle : String → ParseOutcome) (path : String) :
    List (String × Component) :=
  match oracle path with
  | .parsed comps _ => comps
  | _ => []

/-! ### Claims about the Tree Indexer: C1 and C9 -/

/-- The sorted listing of a project directory holding a `.git` directory
(blocklisted, hence skipped by the traversal) followed by a source file:
`sorted` puts `".git"` first (`'.' < 'A'`). -/
def c1Entries : List FSEntry := [FSEntry.dir ".git" [], FSEntry.file "A.java" 0]

/-- The index structure the traversal builds over `c1Entries`. -/
def c1Tree : FileNode := build_project_structure "proj" c1Entries

/-- C1: evidence of the index/lookup divergence. The traversal numbers
entries by their position in the full sorted listing (the skipped `.git`
still consumes position 1), so the only child node carries dotted index
`"2"`; but `get_node_by_index` indexes into the children list, which has a
single element — looking up `"2"` is out of range and returns `None`, and
looking up `"1"` returns the node whose stored index is `"2"`. The claimed
index↔node bijection fails on any directory listing containing a skipped
entry. -/
theorem C1_index_lookup_gap :
    (childrenOf c1Tree).map nodeIndex = ["2"]
    ∧ (get_node_by_index c1Tree "2").isNone = true
    ∧ (get_node_by_index c1Tree "1").map nodeIndex = some "2" := by
  refine ⟨?_, ?_, ?_⟩ <;>
    simp only [c1Tree, c1Entries, build_project_structure, traverse_directory] <;> decide

/-- C9 walk lemma: the walking loop succeeds exactly on specification-valid
paths (every part an in-range 1-based integer). -/
theorem indexWalk_iff (ps : List String) : ∀ t n : FileNode,
    indexWalk t ps = some n ↔ PathOk t ps n := by
  induction ps with
  | nil =>
    intro t n
    constructor
    · intro h
      have ht : t = n := by simpa [indexWalk] using h
      subst ht; exact PathOk.nil t
    · intro h; cases h; rfl
  | cons p ps ih =>
    intro t n
    constructor
    · intro h
      rw [indexWalk] at h
      cases hk : pyInt p with
      | none => simp only [hk] at h; exact Option.noConfusion h
      | some k =>
        simp only [hk] at h
        by_cases hb : 0 < k ∧ k ≤ ((childrenOf t).length : Int)
        · rw [if_pos hb] at h
          cases hc : (childrenOf t)[k.toNat - 1]? with
          | none => simp only [hc] at h; exact Option.noConfusion h
          | some c =>
            simp only [hc] at h
            exact PathOk.step hk hb.1 hb.2 hc ((ih c n).1 h)
        · rw [if_neg hb] at h; exact Option.noConfusion h
    · intro h
      cases h with
      | step hk hpos hle hc hrest =>
        rw [indexWalk]
        simp only [hk]
        rw [if_pos ⟨hpos, hle⟩]
        simp only [hc]
        exact (ih _ n).2 hrest

/-- C9: `get_node_by_index` is a total function (the embedding returns an
`Option`, never raising), and it finds a node exactly when the index is the
root's `"0"` or every dotted part converts to a 1-based integer position in
range at each step of the walk — so a malformed part (`int` failure), a
zero or negative part, or an out-of-range part yields `none`. -/
theorem C9_point_lookup_total (root : FileNode) (index : String) (n : FileNode) :
    get_node_by_index root index = some n ↔
      index ≠ "" ∧ ((index = "0" ∧ n = root) ∨
        (index ≠ "0" ∧ PathOk root (pySplit '.' index) n)) := by
  unfold get_node_by_index
  by_cases h0 : index = ""
  · simp [h0]
  · rw [if_neg h0]
    by_cases h1 : index = "0"
    · rw [if_pos h1]
      constructor
      · intro h
        have hn : root = n := by simpa using h
        exact ⟨h0, Or.inl ⟨h1, hn.symm⟩⟩
      · intro ⟨_, h⟩
        rcases h with ⟨_, hn⟩ | ⟨hne, _⟩
        · rw [hn]
        · exact absurd h1 hne
    · rw [if_neg h1, indexWalk_iff]
      constructor
      · intro h; exact ⟨h0, Or.inr ⟨h1, h⟩⟩
      · intro ⟨_, h⟩
        rcases h with ⟨he, _⟩ | ⟨_, hp⟩
        · exact absurd he h1
        · exact hp

/-- A small literal index structure for instantiating C9. -/
def c9Tree : FileNode := FileNode.dir "0" "r" [FileNode.file "1" "a.txt" "doc"]

/-- Closed instance of C9 at a concrete tree and index. -/
theorem C9_point_lookup_total_witness :
    get_node_by_index c9Tree "1" = some (FileNode.file "1" "a.txt" "doc") := by
  apply (C9_point_lookup_total c9Tree "1" (FileNode.file "1" "a.txt" "doc")).mpr
  refine ⟨by decide, Or.inr ⟨by decide, ?_⟩⟩
  have hs : pySplit '.' "1" = ["1"] := by decide
  rw [hs]
  exact PathOk.step (k := 1) (by decide) (by decide) (by decide) rfl (PathOk.nil _)

/-! ### Claim C3: cache staleness validation -/

/-- Nothing is reachable in an empty listing. -/
theorem trackedReachable_nil (n : String) (m : Nat) : ¬ TrackedReachable [] n m := by
  intro h
  cases h with
  | here h1 _ => simp at h1
  | deeper h1 _ _ => simp at h1

/-- The walk's maximum is below the timestamp iff every reachable tracked
file is. -/
theorem latest_mod_tracked_le (ts : Nat) : ∀ es : List FSEntry,
    latest_mod_tracked es ≤ ts ↔ ∀ n m, TrackedReachable es n m → m ≤ ts := by
  intro es
  match es with
  | [] =>
    simp only [latest_mod_tracked]
    exact ⟨fun _ n m h => absurd h (trackedReachable_nil n m), fun _ => Nat.zero_le ts⟩
  | .file n0 m0 :: rest =>
    rw [latest_mod_tracked]
    rw [Nat.max_le]
    constructor
    · intro h n' m' hm
      cases hm with
      | here h1 htr =>
        rcases List.mem_cons.1 h1 with h2 | h2
        · cases h2
          have h4 := h.1
          rwa [if_pos htr] at h4
        · exact ((latest_mod_tracked_le ts rest).1 h.2) n' m' (.here h2 htr)
      | deeper h1 hpr h2 =>
        rcases List.mem_cons.1 h1 with h3 | h3
        · cases h3
        · exact ((latest_mod_tracked_le ts rest).1 h.2) n' m' (.deeper h3 hpr h2)
    · intro h
      have h2 : latest_mod_tracked rest ≤ ts := by
        apply (latest_mod_tracked_le ts rest).2
        intro n' m' hr
        cases hr with
        | here h3 htr => exact h n' m' (.here (List.mem_cons_of_mem _ h3) htr)
        | deeper h3 hpr h4 => exact h n' m' (.deeper (List.mem_cons_of_mem _ h3) hpr h4)
      have h1 : (if relevantExt n0 = true then m0 else 0) ≤ ts := by
        by_cases htr : relevantExt n0 = true
        · rw [if_pos htr]
          exact h n0 m0 (.here (List.mem_cons_self _ _) htr)
        · rw [if_neg htr]; exact Nat.zero_le ts
      exact ⟨h1, h2⟩
  | .dir d sub :: rest =>
    rw [latest_mod_tracked]
    rw [Nat.max_le]
    constructor
    · intro h n' m' hm
      cases hm with
      | here h1 htr =>
        rcases List.mem_cons.1 h1 with h2 | h2
        · cases h2
        · exact ((latest_mod_tracked_le ts rest).1 h.2) n' m' (.here h2 htr)
      | deeper h1 hpr h2 =>
        rcases List.mem_cons.1 h1 with h3 | h3
        · cases h3
          have h4 := h.1
          rw [if_neg (by rw [hpr]; exact Bool.false_ne_true)] at h4
          exact ((latest_mod_tracked_le ts sub).1 h4) n' m' h2
        · exact ((latest_mod_tracked_le ts rest).1 h.2) n' m' (.deeper h3 hpr h2)
    · intro h
      have h2 : latest_mod_tracked rest ≤ ts := by
        apply (latest_mod_tracked_le ts rest).2
        intro n' m' hr
        cases hr with
        | here h3 htr => exact h n' m' (.here (List.mem_cons_of_mem _ h3) htr)
        | deeper h3 hpr h4 => exact h n' m' (.deeper (List.mem_cons_of_mem _ h3) hpr h4)
      have h1 : (if validationPrunes d = true then 0 else latest_mod_tracked sub) ≤ ts := by
        by_cases hp : validationPrunes d = true
        · rw [if_pos hp]; exact Nat.zero_le ts
        · rw [if_neg hp]
          apply (latest_mod_tracked_le ts sub).2
          intro n' m' hr
          exact h n' m'
            (.deeper (List.mem_cons_self _ _) (Bool.not_eq_true _ ▸ hp) hr)
      exact ⟨h1, h2⟩
termination_by es => sizeOf es

/-- A project listing whose only tracked file sits inside a dot-prefixed
(but not blocklisted) directory. -/
def c3fs : List FSEntry := [FSEntry.dir ".github" [FSEntry.file "Main.java" 10]]

/-- C3 counterexample: a tracked `.java` file under `.github` is newer
(mtime 10) than the stored timestamp (5) — the walk the claim describes
(Tree Indexer blocklist only) sees it, yet the implemented validation
accepts the cache, because its walk additionally prunes every dot-prefixed
directory. So "rejects whenever any tracked file is newer" and "skips
exactly the same blocklist as the Tree Indexer" are both false as stated. -/
theorem C3_counterexample :
    cache_validation_accepts "/proj" "/proj" 5 c3fs = true
    ∧ claimTrackedWalkLatest c3fs = 10
    ∧ ¬ ((10 : Nat) ≤ 5) := by
  refine ⟨?_, ?_, by decide⟩ <;>
    simp only [c3fs, cache_validation_accepts, latest_mod_tracked, claimTrackedWalkLatest] <;>
    decide

/-- C3 (amended): cache load accepts the snapshot iff the stored root
equals the current root, the stored timestamp is present, and no tracked
file reachable by the validation walk — which prunes the Tree Indexer's
blocklist *plus every dot-prefixed directory name* — is newer than the
stored timestamp. In particular touching any tracked file outside
dot-prefixed directories after a save invalidates the cache on the next
load. -/
theorem C3_amended_validation (storedRoot currentRoot : String) (ts : Nat)
    (fs : List FSEntry) :
    cache_validation_accepts storedRoot currentRoot ts fs = true ↔
      storedRoot = currentRoot ∧ ts ≠ 0 ∧ ∀ n m, TrackedReachable fs n m → m ≤ ts := by
  simp only [cache_validation_accepts, Bool.and_eq_true, beq_iff_eq, bne_iff_ne,
    decide_eq_true_eq]
  rw [latest_mod_tracked_le]
  tauto

/-- Closed instance of the amended C3 at a concrete input. -/
theorem C3_amended_validation_witness :
    cache_validation_accepts "/p" "/p" 5 [] = true :=
  (C3_amended_validation "/p" "/p" 5 []).mpr
    ⟨rfl, by decide, fun n m h => absurd h (trackedReachable_nil n m)⟩

/-! ### Claim C2: cache save/load round trip -/

/-- The single field of the C2 scenario: `private String x;`. -/
def c2field : FieldRec :=
  { name := "x", field_type := "String", modifiers := ["private"], annotations := [] }

/-- A fully analyzed one-class project: `package p; class C { private String x; }`. -/
def c2comp : Component :=
  { name := "C", file_path := "/p/C.java", component_type := "Class", index := "1.1",
    methods := [], fields := [("x", c2field)], imports := [], extends_ := none,
    implements := [], annotations := [], package := "p", inner_classes := [],
    generics := [], fully_qualified_name := "p.C" }

/-- The analyzer state after the fresh analysis of that project. -/
def c2state : AnalyzerState :=
  { project_path := "/p", components := [("p.C", c2comp)], methods := [],
    index_structure := none, package_structure := [("p", ["p.C"])], string_index := [],
    call_graph_edges := [], parse_errors := [] }

/-- C2: evidence that an immediate save/load round trip is not equivalent
to the fresh build. The saved snapshot serializes the component's field
map (`{'x': 'private String x'}`), but the reconstruction initializes
`fields` to empty and — contrary to the comment at explorer.py:912 — never
repopulates it: the freshly built component owns its field, the loaded one
owns none. Fields are persistent state, not in the claim's transient-field
exclusion. -/
theorem C2_fields_lost :
    (alookup "p.C" (save_to_cache_data c2state 100).components).map CompDict.fields
        = some [("x", "private String x")]
    ∧ (alookup "p.C" (load_from_cache_data (save_to_cache_data c2state 100)).components).map
        Component.fields = some []
    ∧ (alookup "p.C" c2state.components).map Component.fields = some [("x", c2field)]
    ∧ ([("x", c2field)] : List (String × FieldRec)) ≠ [] := by
  exact ⟨by decide, by decide, by decide, by decide⟩

/-! ### Claim C4: symbol-resolution idempotence -/

/-- A component skeleton for resolver scenarios (only the name, package,
imports and FQN take part in resolution). -/
def mkComponent (name pkg fqn : String) (imports : List String) : Component :=
  { name := name, file_path := "", component_type := "Class", index := "",
    methods := [], fields := [], imports := imports, extends_ := none, implements := [],
    annotations := [], package := pkg, inner_classes := [], generics := [],
    fully_qualified_name := fqn }

/-- Component store extracted from two files: a default-package
`import a.*; class Outer { class Inner {} }` and a
`package a; class Outer { class Inner {} }`. -/
def c4comps : List (String × Component) :=
  [("Outer", mkComponent "Outer" "" "Outer" ["a.*"]),
   ("Outer$Inner", mkComponent "Inner" "" "Outer$Inner" ["a.*"]),
   ("a.Outer", mkComponent "Outer" "a" "a.Outer" []),
   ("a.Outer$Inner", mkComponent "Inner" "a" "a.Outer$Inner" [])]

/-- The context component `Outer$Inner` of the default-package file. -/
def c4ctx : Component := mkComponent "Inner" "" "Outer$Inner" ["a.*"]

/-- C4 counterexample: resolution is not idempotent. In the default-package
context, `Inner` resolves through the inner-class scope walk to
`Outer$Inner` — a name whose base part has no dot — and re-resolving that
very output in the same context goes through the wildcard-import branch to
`a.Outer$Inner`. -/
theorem C4_counterexample :
    resolve_type_name c4comps "Inner" c4ctx = "Outer$Inner"
    ∧ resolve_type_name c4comps "Outer$Inner" c4ctx = "a.Outer$Inner"
    ∧ ("a.Outer$Inner" : String) ≠ "Outer$Inner" := by
  exact ⟨by decide, by decide, by decide⟩

/-- Dotted base names are returned verbatim (explorer.py:502). -/
theorem resolve_dotted_verbatim (comps : List (String × Component)) (name : String)
    (ctx : Component) (h : containsChar '.' (baseOf name) = true) :
    resolve_type_name comps name ctx = name := by
  unfold resolve_type_name
  rw [if_pos h]

/-- C4 (amended): re-resolving a resolved name is a no-op whenever the
first resolution produced a name whose base part contains a dot — every
resolution path except the inner-class walk on a default-package scope and
the unchanged-input fallback yields such a name — or left its input
unchanged. Unrestricted idempotence fails (see the counterexample: a
dotless `Outer$Inner` result re-resolves to `a.Outer$Inner`). -/
theorem C4_amended_idempotence (comps : List (String × Component)) (ctx : Component)
    (x : String)
    (h : containsChar '.' (baseOf (resolve_type_name comps x ctx)) = true ∨
         resolve_type_name comps x ctx = x) :
    resolve_type_name comps (resolve_type_name comps x ctx) ctx
      = resolve_type_name comps x ctx := by
  rcases h with h | h
  · exact resolve_dotted_verbatim comps _ ctx h
  · rw [h]; exact h

/-- Closed instance of the amended C4: `List` resolves to `java.util.List`,
whose re-resolution is a no-op. -/
theorem C4_amended_idempotence_witness :
    resolve_type_name c4comps (resolve_type_name c4comps "List" c4ctx) c4ctx
      = resolve_type_name c4comps "List" c4ctx :=
  C4_amended_idempotence c4comps c4ctx "List" (Or.inl (by decide))

/-! ### Claims C5 and C10: call-graph structure, build side -/

/-- Membership after a guarded append (the `not in`-checked `append`s of
explorer.py:588-593 and 990-995). -/
theorem mem_appendIfAbsent {α : Type} [DecidableEq α] (l : List α) (a b : α) :
    (b ∈ if a ∈ l then l else l ++ [a]) ↔ b ∈ l ∨ b = a := by
  by_cases h : a ∈ l
  · rw [if_pos h]
    constructor
    · exact Or.inl
    · rintro (hb | rfl)
      · exact hb
      · exact h
  · rw [if_neg h]
    simp [List.mem_append]

/-- Edge insertion never touches the node set. -/
theorem addResolvedEdge_nodes (st : CGState) (u v : String) :
    (addResolvedEdge st u v).nodes = st.nodes := by
  unfold addResolvedEdge
  split <;> rfl

/-- The node set survives any event sequence unchanged. -/
theorem cgFold_nodes : ∀ (evs : List (String × String)) (st : CGState),
    (evs.foldl (fun s e => addResolvedEdge s e.1 e.2) st).nodes = st.nodes := by
  intro evs
  induction evs with
  | nil => intro st; rfl
  | cons e rest ih => intro st; rw [List.foldl_cons, ih, addResolvedEdge_nodes]

/-- An inserted edge is either old or exactly the processed event. -/
theorem addResolvedEdge_edge_cases (st : CGState) (a b : String) :
    ∀ e ∈ (addResolvedEdge st a b).edges, e ∈ st.edges ∨ e = (a, b) := by
  unfold addResolvedEdge
  by_cases hg : b ∈ st.nodes ∧ (a, b) ∉ st.edges
  · rw [if_pos hg]
    dsimp only
    intro e he
    rcases List.mem_append.1 he with h1 | h1
    · exact Or.inl h1
    · exact Or.inr (List.mem_singleton.1 h1)
  · rw [if_neg hg]
    exact fun e he => Or.inl he

/-- Edge endpoints stay inside the node set: the target is guarded by the
`target_key in self.call_graph` check, the source is the iterated method
key. -/
theorem addResolvedEdge_endpoints (st : CGState) (a b : String) (ha : a ∈ st.nodes)
    (hP : ∀ e ∈ st.edges, e.1 ∈ st.nodes ∧ e.2 ∈ st.nodes) :
    ∀ e ∈ (addResolvedEdge st a b).edges, e.1 ∈ st.nodes ∧ e.2 ∈ st.nodes := by
  unfold addResolvedEdge
  by_cases hg : b ∈ st.nodes ∧ (a, b) ∉ st.edges
  · rw [if_pos hg]
    dsimp only
    intro e he
    rcases List.mem_append.1 he with h1 | h1
    · exact hP e h1
    · have h2 := List.mem_singleton.1 h1
      subst h2
      exact ⟨ha, hg.1⟩
  · rw [if_neg hg]
    exact hP

/-- Duplicate-edge insertions are refused, so the edge list stays
duplicate-free. -/
theorem addResolvedEdge_nodup (st : CGState) (a b : String) (h : st.edges.Nodup) :
    (addResolvedEdge st a b).edges.Nodup := by
  unfold addResolvedEdge
  by_cases hg : b ∈ st.nodes ∧ (a, b) ∉ st.edges
  · rw [if_pos hg]
    dsimp only
    exact List.nodup_append.2 ⟨h, List.nodup_singleton _,
      fun x hx hxs => hg.2 ((List.mem_singleton.1 hxs) ▸ hx)⟩
  · rw [if_neg hg]
    exact h

/-- Consistency of the graph with the per-method call lists: an edge
`(u, v)` exists exactly when `v` is recorded among `u`'s outgoing calls and
`u` among `v`'s callers. -/
def CGConsistent (st : CGState) : Prop :=
  ∀ u v : String,
    ((u, v) ∈ st.edges ↔ v ∈ st.calls u) ∧ ((u, v) ∈ st.edges ↔ u ∈ st.called_by v)

/-- One event preserves graph/call-list consistency. -/
theorem addResolvedEdge_consistent (st : CGState) (a b : String) (hQ : CGConsistent st) :
    CGConsistent (addResolvedEdge st a b) := by
  unfold addResolvedEdge
  by_cases hg : b ∈ st.nodes ∧ (a, b) ∉ st.edges
  · rw [if_pos hg]
    intro u v
    dsimp only
    constructor
    · by_cases hu : u = a
      · subst hu
        rw [if_pos rfl, mem_appendIfAbsent]
        have h1 := (hQ u v).1
        simp only [List.mem_append, List.mem_singleton, Prod.mk.injEq]
        tauto
      · rw [if_neg hu]
        have h1 := (hQ u v).1
        simp only [List.mem_append, List.mem_singleton, Prod.mk.injEq]
        tauto
    · by_cases hv : v = b
      · subst hv
        rw [if_pos rfl, mem_appendIfAbsent]
        have h1 := (hQ u v).2
        simp only [List.mem_append, List.mem_singleton, Prod.mk.injEq]
        tauto
      · rw [if_neg hv]
        have h1 := (hQ u v).2
        simp only [List.mem_append, List.mem_singleton, Prod.mk.injEq]
        tauto
  · rw [if_neg hg]
    exact hQ

/-- Consistency is an invariant of the whole event fold. -/
theorem cgFold_consistent : ∀ (evs : List (String × String)) (st : CGState),
    CGConsistent st →
    CGConsistent (evs.foldl (fun s e => addResolvedEdge s e.1 e.2) st) := by
  intro evs
  induction evs with
  | nil => exact fun st h => h
  | cons e rest ih =>
    intro st h
    rw [List.foldl_cons]
    exact ih _ (addResolvedEdge_consistent st e.1 e.2 h)

/-- Every edge of the fold result is an old edge or a processed event. -/
theorem cgFold_edge_origin : ∀ (evs : List (String × String)) (st : CGState),
    ∀ e ∈ (evs.foldl (fun s e => addResolvedEdge s e.1 e.2) st).edges,
      e ∈ st.edges ∨ e ∈ evs := by
  intro evs
  induction evs with
  | nil => exact fun st e he => Or.inl he
  | cons ev rest ih =>
    intro st e he
    rw [List.foldl_cons] at he
    rcases ih _ e he with h1 | h1
    · rcases addResolvedEdge_edge_cases st ev.1 ev.2 e h1 with h2 | h2
      · exact Or.inl h2
      · exact Or.inr (by rw [h2]; exact List.mem_cons_self _ _)
    · exact Or.inr (List.mem_cons_of_mem _ h1)

/-- Endpoint containment is an invariant of the whole event fold. -/
theorem cgFold_endpoints : ∀ (evs : List (String × String)) (st : CGState),
    (∀ e ∈ evs, e.1 ∈ st.nodes) →
    (∀ e ∈ st.edges, e.1 ∈ st.nodes ∧ e.2 ∈ st.nodes) →
    ∀ e ∈ (evs.foldl (fun s e => addResolvedEdge s e.1 e.2) st).edges,
      e.1 ∈ st.nodes ∧ e.2 ∈ st.nodes := by
  intro evs
  induction evs with
  | nil => exact fun st _ hP => hP
  | cons ev rest ih =>
    intro st hev hP
    rw [List.foldl_cons]
    have hnodes := addResolvedEdge_nodes st ev.1 ev.2
    have hP2 : ∀ e ∈ (addResolvedEdge st ev.1 ev.2).edges,
        e.1 ∈ (addResolvedEdge st ev.1 ev.2).nodes ∧ e.2 ∈ (addResolvedEdge st ev.1 ev.2).nodes := by
      rw [hnodes]
      exact addResolvedEdge_endpoints st ev.1 ev.2 (hev ev (List.mem_cons_self _ _)) hP
    have h2 := ih (addResolvedEdge st ev.1 ev.2)
      (fun e he => by rw [hnodes]; exact hev e (List.mem_cons_of_mem _ he)) hP2
    intro e he
    have h3 := h2 e he
    rwa [hnodes] at h3

/-- Edge duplicate-freeness is an invariant of the whole event fold. -/
theorem cgFold_nodup : ∀ (evs : List (String × String)) (st : CGState),
    st.edges.Nodup →
    (evs.foldl (fun s e => addResolvedEdge s e.1 e.2) st).edges.Nodup := by
  intro evs
  induction evs with
  | nil => exact fun st h => h
  | cons ev rest ih =>
    intro st h
    rw [List.foldl_cons]
    exact ih _ (addResolvedEdge_nodup st ev.1 ev.2 h)

/-- Every event's source key is one of the extracted method keys. -/
theorem cgEvents_fst {Inv : Type} (ms : List (String × BMethod Inv))
    (rv : String → Inv → List String) :
    ∀ e ∈ cgEvents ms rv, e.1 ∈ ms.map Prod.fst := by
  intro e he
  unfold cgEvents at he
  rcases List.mem_flatMap.1 he with ⟨km, hkm, he2⟩
  rcases List.mem_map.1 he2 with ⟨t, _, rfl⟩
  exact List.mem_map.2 ⟨km, hkm, rfl⟩

/-- Every event arises from some invocation the resolver resolved. -/
theorem cgEvents_origin {Inv : Type} (ms : List (String × BMethod Inv))
    (rv : String → Inv → List String) :
    ∀ e ∈ cgEvents ms rv,
      ∃ km ∈ ms, ∃ inv ∈ km.2.invocations, e.1 = km.1 ∧ e.2 ∈ rv km.1 inv := by
  intro e he
  unfold cgEvents at he
  rcases List.mem_flatMap.1 he with ⟨km, hkm, he2⟩
  rcases List.mem_map.1 he2 with ⟨t, ht, rfl⟩
  rcases List.mem_flatMap.1 ht with ⟨inv, hinv, ht2⟩
  exact ⟨km, hkm, inv, hinv, rfl, ht2⟩

/-! ### Claims C5 and C10: call-graph structure, load side -/

/-- Lookup after a Python dict assignment. -/
theorem alookup_dictSet {β : Type} (l : List (String × β)) (k k' : String) (v : β) :
    alookup k (dictSet l k' v) = if k' = k then some v else alookup k l := by
  induction l with
  | nil => simp [dictSet, alookup]
  | cons p rest ih =>
    by_cases h1 : p.1 = k'
    · by_cases h2 : k' = k
      · simp [dictSet, alookup, h1, h2]
      · have h3 : ¬ p.1 = k := by rw [h1]; exact h2
        simp [dictSet, alookup, h1, h2, h3]
    · by_cases h2 : p.1 = k
      · have h3 : ¬ k' = k := fun he => h1 (by rw [h2, ← he])
        have h4 : ¬ k = k' := fun he => h3 he.symm
        simp [dictSet, alookup, h1, h2, h3, h4]
      · simp [dictSet, alookup, h1, h2, ih]

/-- The outgoing-call store after `addCallTo`, away from the bumped key. -/
theorem alookup_addCallTo_ne (ms : List (String × MethodRec)) (u v x : String)
    (h : x ≠ u) : alookup x (addCallTo ms u v) = alookup x ms := by
  induction ms with
  | nil => rfl
  | cons p rest ih =>
    unfold addCallTo at ih ⊢
    rw [List.map_cons]
    by_cases h1 : p.1 = u
    · rw [if_pos h1]
      unfold alookup
      dsimp only
      rw [if_neg (h1 ▸ fun h2 => h h2.symm : ¬ p.1 = x), if_neg (h1 ▸ fun h2 => h h2.symm : ¬ p.1 = x)]
      exact ih
    · rw [if_neg h1]
      unfold alookup
      by_cases h2 : p.1 = x
      · rw [if_pos h2, if_pos h2]
      · rw [if_neg h2, if_neg h2]
        exact ih

/-- The outgoing-call store after `addCallTo`, at the bumped key. -/
theorem alookup_addCallTo_eq (ms : List (String × MethodRec)) (u v : String) :
    alookup u (addCallTo ms u v) = (alookup u ms).map fun m =>
      { m with calls := if v ∈ m.calls then m.calls else m.calls ++ [v] } := by
  induction ms with
  | nil => rfl
  | cons p rest ih =>
    unfold addCallTo at ih ⊢
    rw [List.map_cons]
    by_cases h1 : p.1 = u
    · rw [if_pos h1]
      unfold alookup
      dsimp only
      rw [if_pos h1, if_pos h1]
      rfl
    · rw [if_neg h1]
      unfold alookup
      rw [if_neg h1, if_neg h1]
      exact ih

/-- `addCallerTo` never changes any `calls` list. -/
theorem alookup_addCallerTo_calls (ms : List (String × MethodRec)) (v u x : String) :
    ((alookup x (addCallerTo ms v u)).map MethodRec.calls)
      = (alookup x ms).map MethodRec.calls := by
  induction ms with
  | nil => rfl
  | cons p rest ih =>
    unfold addCallerTo at ih ⊢
    rw [List.map_cons]
    by_cases h1 : p.1 = v
    · rw [if_pos h1]
      unfold alookup
      dsimp only
      by_cases h2 : p.1 = x
      · rw [if_pos h2, if_pos h2]
        rfl
      · rw [if_neg h2, if_neg h2]
        exact ih
    · rw [if_neg h1]
      unfold alookup
      by_cases h2 : p.1 = x
      · rw [if_pos h2, if_pos h2]
      · rw [if_neg h2, if_neg h2]
        exact ih

/-- The incoming-caller store after `addCallerTo`, away from the bumped key. -/
theorem alookup_addCallerTo_ne (ms : List (String × MethodRec)) (v u x : String)
    (h : x ≠ v) : alookup x (addCallerTo ms v u) = alookup x ms := by
  induction ms with
  | nil => rfl
  | cons p rest ih =>
    unfold addCallerTo at ih ⊢
    rw [List.map_cons]
    by_cases h1 : p.1 = v
    · rw [if_pos h1]
      unfold alookup
      dsimp only
      rw [if_neg (h1 ▸ fun h2 => h h2.symm : ¬ p.1 = x), if_neg (h1 ▸ fun h2 => h h2.symm : ¬ p.1 = x)]
      exact ih
    · rw [if_neg h1]
      unfold alookup
      by_cases h2 : p.1 = x
      · rw [if_pos h2, if_pos h2]
      · rw [if_neg h2, if_neg h2]
        exact ih

/-- The incoming-caller store after `addCallerTo`, at the bumped key. -/
theorem alookup_addCallerTo_eq (ms : List (String × MethodRec)) (v u : String) :
    alookup v (addCallerTo ms v u) = (alookup v ms).map fun m =>
      { m with called_by := if u ∈ m.called_by then m.called_by else m.called_by ++ [u] } := by
  induction ms with
  | nil => rfl
  | cons p rest ih =>
    unfold addCallerTo at ih ⊢
    rw [List.map_cons]
    by_cases h1 : p.1 = v
    · rw [if_pos h1]
      unfold alookup
      dsimp only
      rw [if_pos h1, if_pos h1]
      rfl
    · rw [if_neg h1]
      unfold alookup
      rw [if_neg h1, if_neg h1]
      exact ih

/-- `addCallTo` never changes any `called_by` list. -/
theorem alookup_addCallTo_called_by (ms : List (String × MethodRec)) (u v x : String) :
    ((alookup x (addCallTo ms u v)).map MethodRec.called_by)
      = (alookup x ms).map MethodRec.called_by := by
  induction ms with
  | nil => rfl
  | cons p rest ih =>
    unfold addCallTo at ih ⊢
    rw [List.map_cons]
    by_cases h1 : p.1 = u
    · rw [if_pos h1]
      unfold alookup
      dsimp only
      by_cases h2 : p.1 = x
      · rw [if_pos h2, if_pos h2]
        rfl
      · rw [if_neg h2, if_neg h2]
        exact ih
    · rw [if_neg h1]
      unfold alookup
      by_cases h2 : p.1 = x
      · rw [if_pos h2, if_pos h2]
      · rw [if_neg h2, if_neg h2]
        exact ih

/-- The outgoing-call list stored on the method under `u` (empty when no
method is stored there). -/
def callsOfL (ms : List (String × MethodRec)) (u : String) : List String :=
  ((alookup u ms).map MethodRec.calls).getD []

/-- The incoming-caller list stored on the method under `v`. -/
def calledByOfL (ms : List (String × MethodRec)) (v : String) : List String :=
  ((alookup v ms).map MethodRec.called_by).getD []

/-- `Option.map` preserves presence. -/
theorem opt_isSome_map {α β : Type} (f : α → β) (o : Option α) :
    (o.map f).isSome = o.isSome := by
  cases o <;> rfl

/-- A rebuild step keeps every key present or absent as before. -/
theorem rebuildStep_isSome (ms : List (String × MethodRec)) (e : String × String)
    (k : String) : (alookup k (rebuildStep ms e)).isSome = (alookup k ms).isSome := by
  unfold rebuildStep
  by_cases hg : (alookup e.1 ms).isSome ∧ (alookup e.2 ms).isSome
  · rw [if_pos hg]
    by_cases h2 : k = e.2
    · rw [h2, alookup_addCallerTo_eq, opt_isSome_map]
      by_cases h1 : e.2 = e.1
      · rw [h1, alookup_addCallTo_eq, opt_isSome_map]
      · rw [alookup_addCallTo_ne ms e.1 e.2 e.2 h1]
    · rw [alookup_addCallerTo_ne _ _ _ _ h2]
      by_cases h1 : k = e.1
      · rw [h1, alookup_addCallTo_eq, opt_isSome_map]
      · rw [alookup_addCallTo_ne ms e.1 e.2 k h1]
  · rw [if_neg hg]

/-- Membership in an outgoing list after one rebuild step: the step adds
exactly the processed edge's callee to its caller (when both endpoints are
loaded), and nothing else. -/
theorem callsOfL_rebuildStep (ms : List (String × MethodRec)) (e : String × String)
    (he : (alookup e.1 ms).isSome ∧ (alookup e.2 ms).isSome) (x y : String) :
    y ∈ callsOfL (rebuildStep ms e) x ↔ (x = e.1 ∧ y = e.2) ∨ y ∈ callsOfL ms x := by
  unfold rebuildStep
  rw [if_pos he]
  unfold callsOfL
  rw [alookup_addCallerTo_calls]
  by_cases h1 : x = e.1
  · rw [h1, alookup_addCallTo_eq]
    rcases ho : alookup e.1 ms with _ | m
    · rw [ho] at he
      exact absurd he.1 (by simp)
    · simp only [Option.map_some', Option.getD_some]
      rw [mem_appendIfAbsent]
      tauto
  · rw [alookup_addCallTo_ne ms e.1 e.2 x h1]
    constructor
    · exact fun h => Or.inr h
    · rintro (⟨hx, _⟩ | h)
      · exact absurd hx h1
      · exact h

/-- Membership in an incoming list after one rebuild step: the step adds
exactly the processed edge's caller to its callee. -/
theorem calledByOfL_rebuildStep (ms : List (String × MethodRec)) (e : String × String)
    (he : (alookup e.1 ms).isSome ∧ (alookup e.2 ms).isSome) (x y : String) :
    y ∈ calledByOfL (rebuildStep ms e) x ↔ (x = e.2 ∧ y = e.1) ∨ y ∈ calledByOfL ms x := by
  unfold rebuildStep
  rw [if_pos he]
  unfold calledByOfL
  by_cases h1 : x = e.2
  · rw [h1, alookup_addCallerTo_eq]
    by_cases h2 : e.2 = e.1
    · rw [h2, alookup_addCallTo_eq]
      rcases ho : alookup e.1 ms with _ | m
      · rw [ho] at he
        exact absurd he.1 (by simp)
      · simp only [Option.map_some', Option.getD_some]
        rw [mem_appendIfAbsent]
        simp only [eq_self_iff_true, true_and]
        tauto
    · rw [alookup_addCallTo_ne ms e.1 e.2 e.2 h2]
      rcases ho : alookup e.2 ms with _ | m
      · rw [ho] at he
        exact absurd he.2 (by simp)
      · simp only [Option.map_some', Option.getD_some]
        rw [mem_appendIfAbsent]
        simp only [eq_self_iff_true, true_and]
        tauto
  · rw [alookup_addCallerTo_ne _ _ _ _ h1]
    have hcb := alookup_addCallTo_called_by ms e.1 e.2 x
    rw [show ((alookup x (addCallTo ms e.1 e.2)).map MethodRec.called_by).getD []
          = ((alookup x ms).map MethodRec.called_by).getD [] from by rw [hcb]]
    tauto

/-- Outgoing lists after the whole rebuild loop: exactly the processed
edges (all of which connect loaded methods) plus whatever was there
before. -/
theorem callsOfL_rebuildFold : ∀ (es : List (String × String)) (ms : List (String × MethodRec)),
    (∀ e ∈ es, (alookup e.1 ms).isSome ∧ (alookup e.2 ms).isSome) →
    ∀ x y, y ∈ callsOfL (es.foldl rebuildStep ms) x ↔ (x, y) ∈ es ∨ y ∈ callsOfL ms x := by
  intro es
  induction es with
  | nil =>
    intro ms _ x y
    simp
  | cons e rest ih =>
    intro ms hval x y
    rw [List.foldl_cons]
    have he := hval e (List.mem_cons_self _ _)
    have hval2 : ∀ e2 ∈ rest,
        (alookup e2.1 (rebuildStep ms e)).isSome ∧ (alookup e2.2 (rebuildStep ms e)).isSome := by
      intro e2 he2
      rw [rebuildStep_isSome, rebuildStep_isSome]
      exact hval e2 (List.mem_cons_of_mem _ he2)
    rw [ih (rebuildStep ms e) hval2 x y, callsOfL_rebuildStep ms e he x y]
    simp only [List.mem_cons, Prod.ext_iff]
    tauto

/-- Incoming lists after the whole rebuild loop. -/
theorem calledByOfL_rebuildFold : ∀ (es : List (String × String)) (ms : List (String × MethodRec)),
    (∀ e ∈ es, (alookup e.1 ms).isSome ∧ (alookup e.2 ms).isSome) →
    ∀ x y, y ∈ calledByOfL (es.foldl rebuildStep ms) x ↔
      (y, x) ∈ es ∨ y ∈ calledByOfL ms x := by
  intro es
  induction es with
  | nil =>
    intro ms _ x y
    simp
  | cons e rest ih =>
    intro ms hval x y
    rw [List.foldl_cons]
    have he := hval e (List.mem_cons_self _ _)
    have hval2 : ∀ e2 ∈ rest,
        (alookup e2.1 (rebuildStep ms e)).isSome ∧ (alookup e2.2 (rebuildStep ms e)).isSome := by
      intro e2 he2
      rw [rebuildStep_isSome, rebuildStep_isSome]
      exact hval e2 (List.mem_cons_of_mem _ he2)
    rw [ih (rebuildStep ms e) hval2 x y, calledByOfL_rebuildStep ms e he x y]
    simp only [List.mem_cons, Prod.ext_iff]
    tauto

/-- Every method the load loop stores starts with empty call lists. -/
theorem loadFold_calls_nil :
    ∀ (entries : List (String × MethodDict))
      (acc : List (String × Component) × List (String × MethodRec)),
    (∀ k m, alookup k acc.2 = some m → m.calls = [] ∧ m.called_by = []) →
    ∀ k m, alookup k (entries.foldl loadMethodStep acc).2 = some m →
      m.calls = [] ∧ m.called_by = [] := by
  intro entries
  induction entries with
  | nil => exact fun acc h => h
  | cons ent rest ih =>
    intro acc hacc
    rw [List.foldl_cons]
    apply ih
    intro k m hm
    unfold loadMethodStep at hm
    split at hm
    · exact hacc k m hm
    · split at hm
      · exact hacc k m hm
      · dsimp only at hm
        rw [alookup_dictSet] at hm
        by_cases hk : ent.1 = k
        · rw [if_pos hk] at hm
          cases hm
          exact ⟨rfl, rfl⟩
        · rw [if_neg hk] at hm
          exact hacc k m hm

/-- A store of all-empty call lists reports empty everywhere. -/
theorem callsOfL_of_nil (ms : List (String × MethodRec))
    (h : ∀ k m, alookup k ms = some m → m.calls = [] ∧ m.called_by = []) (x : String) :
    callsOfL ms x = [] ∧ calledByOfL ms x = [] := by
  unfold callsOfL calledByOfL
  cases ho : alookup x ms with
  | none => exact ⟨rfl, rfl⟩
  | some m =>
    have := h x m ho
    simp [this.1, this.2]

/-- Membership through the dedup fold. -/
theorem dedup_fold_mem :
    ∀ (es acc : List (String × String)) (e : String × String),
      e ∈ es.foldl (fun acc e => if e ∈ acc then acc else acc ++ [e]) acc ↔
        e ∈ acc ∨ e ∈ es := by
  intro es
  induction es with
  | nil => simp
  | cons x rest ih =>
    intro acc e
    rw [List.foldl_cons, ih]
    by_cases hx : x ∈ acc
    · rw [if_pos hx]
      simp only [List.mem_cons]
      constructor
      · rintro (h | h)
        · exact Or.inl h
        · exact Or.inr (Or.inr h)
      · rintro (h | rfl | h)
        · exact Or.inl h
        · exact Or.inl hx
        · exact Or.inr h
    · rw [if_neg hx]
      simp only [List.mem_append, List.mem_singleton, List.mem_cons]
      tauto

/-- The dedup fold keeps the accumulator duplicate-free. -/
theorem dedup_fold_nodup :
    ∀ (es acc : List (String × String)), acc.Nodup →
      (es.foldl (fun acc e => if e ∈ acc then acc else acc ++ [e]) acc).Nodup := by
  intro es
  induction es with
  | nil => exact fun acc h => h
  | cons x rest ih =>
    intro acc h
    rw [List.foldl_cons]
    apply ih
    by_cases hx : x ∈ acc
    · rwa [if_pos hx]
    · rw [if_neg hx]
      exact List.nodup_append.2 ⟨h, List.nodup_singleton _,
        fun a ha has => hx ((List.mem_singleton.1 has) ▸ ha)⟩

/-- `dedupEdges` preserves membership. -/
theorem dedupEdges_mem (es : List (String × String)) (e : String × String) :
    e ∈ dedupEdges es ↔ e ∈ es := by
  unfold dedupEdges
  rw [dedup_fold_mem]
  simp

/-- `dedupEdges` output is duplicate-free. -/
theorem dedupEdges_nodup (es : List (String × String)) : (dedupEdges es).Nodup :=
  dedup_fold_nodup es [] List.nodup_nil

/-- A key occurs in the key list iff its lookup succeeds. -/
theorem mem_keys_iff_isSome {β : Type} : ∀ (ms : List (String × β)) (x : String),
    x ∈ ms.map Prod.fst ↔ (alookup x ms).isSome = true := by
  intro ms
  induction ms with
  | nil => simp [alookup]
  | cons p rest ih =>
    intro x
    rw [List.map_cons, List.mem_cons]
    unfold alookup
    by_cases h : p.1 = x
    · rw [if_pos h]
      simp [h]
    · rw [if_neg h]
      have h2 : ¬ x = p.1 := fun he => h he.symm
      simp [h2, ih]

/-- Mapping a key-preserving function leaves the key list unchanged. -/
theorem map_fst_keylike {β : Type} : ∀ (ms : List (String × β))
    (f : (String × β) → (String × β)), (∀ p, (f p).1 = p.1) →
    (ms.map f).map Prod.fst = ms.map Prod.fst := by
  intro ms f hf
  induction ms with
  | nil => rfl
  | cons p rest ih =>
    simp only [List.map_cons, hf p, ih]

/-- A rebuild step leaves the method-key list unchanged. -/
theorem rebuildStep_keys (ms : List (String × MethodRec)) (e : String × String) :
    (rebuildStep ms e).map Prod.fst = ms.map Prod.fst := by
  unfold rebuildStep
  by_cases hg : (alookup e.1 ms).isSome ∧ (alookup e.2 ms).isSome
  · rw [if_pos hg]
    unfold addCallerTo addCallTo
    rw [map_fst_keylike _ _ fun p => by by_cases h : p.1 = e.2 <;> simp [h],
        map_fst_keylike _ _ fun p => by by_cases h : p.1 = e.1 <;> simp [h]]
  · rw [if_neg hg]

/-- The whole rebuild loop leaves the method-key list unchanged. -/
theorem rebuildFold_keys : ∀ (es : List (String × String)) (ms : List (String × MethodRec)),
    (es.foldl rebuildStep ms).map Prod.fst = ms.map Prod.fst := by
  intro es
  induction es with
  | nil => exact fun ms => rfl
  | cons e rest ih =>
    intro ms
    rw [List.foldl_cons, ih, rebuildStep_keys]

/-- C5: the call graph's node set is the complete extracted method-key
list, fixed before any edge and invariant under any event sequence; both
endpoints of every edge are nodes (the builder guards targets with a
node-membership check and sources are iterated method keys, and the loader
filters persisted edges to loaded keys); and duplicate resolutions collapse
— the edge list is duplicate-free — on the fresh-build path and on the
cache-load path alike. -/
theorem C5_node_set_invariant :
    (∀ (Inv : Type) (ms : List (String × BMethod Inv)) (rv : String → Inv → List String),
      (∀ evs : List (String × String),
          (evs.foldl (fun st e => addResolvedEdge st e.1 e.2) (cgInit (ms.map Prod.fst))).nodes
            = ms.map Prod.fst)
      ∧ (∀ e ∈ (build_call_graph ms rv).edges,
          e.1 ∈ (build_call_graph ms rv).nodes ∧ e.2 ∈ (build_call_graph ms rv).nodes)
      ∧ (build_call_graph ms rv).edges.Nodup)
    ∧ ∀ data : CacheData,
        (load_from_cache_data data).graph_nodes
            = (load_from_cache_data data).methods.map Prod.fst
        ∧ (∀ e ∈ (load_from_cache_data data).graph_edges,
            e.1 ∈ (load_from_cache_data data).graph_nodes
            ∧ e.2 ∈ (load_from_cache_data data).graph_nodes)
        ∧ (load_from_cache_data data).graph_edges.Nodup := by
  constructor
  · intro Inv ms rv
    refine ⟨fun evs => cgFold_nodes evs _, ?_, ?_⟩
    · intro e he
      have hn : (build_call_graph ms rv).nodes = ms.map Prod.fst := cgFold_nodes _ _
      rw [hn]
      exact cgFold_endpoints (cgEvents ms rv) (cgInit (ms.map Prod.fst))
        (fun e2 he2 => cgEvents_fst ms rv e2 he2) (fun e2 he2 => absurd he2 (List.not_mem_nil e2))
        e he
    · exact cgFold_nodup (cgEvents ms rv) _ List.nodup_nil
  · intro data
    refine ⟨?_, ?_, dedupEdges_nodup _⟩
    · show loadNodes data = ((loadEdges data).foldl rebuildStep (loadPair data).2).map Prod.fst
      rw [rebuildFold_keys]
      rfl
    · intro e he
      have h1 : e ∈ loadValidEdges data := (dedupEdges_mem _ e).1 he
      have h2 := (List.mem_filter.1 h1).2
      exact of_decide_eq_true h2

/-- A one-method store for instantiating the call-graph claims: the single
method's one invocation resolves to the method itself. -/
def cg0ms : List (String × BMethod Unit) := [("A.f()", { invocations := [()] })]

/-- The resolver for the one-method store. -/
def cg0rv : String → Unit → List String := fun _ _ => ["A.f()"]

/-- Closed instance of C5 at a concrete one-method build. -/
theorem C5_node_set_invariant_witness :
    ("A.f()", "A.f()").1 ∈ (build_call_graph cg0ms cg0rv).nodes
    ∧ ("A.f()", "A.f()").2 ∈ (build_call_graph cg0ms cg0rv).nodes :=
  (C5_node_set_invariant.1 Unit cg0ms cg0rv).2.1 ("A.f()", "A.f()") (by decide)

/-- C10: after a fresh build and after a cache load alike, the per-method
call lists and the call graph agree: `(u, v)` is an edge exactly when the
method under `u` lists `v` among its outgoing calls, exactly when the
method under `v` lists `u` among its callers. -/
theorem C10_call_lists_consistent :
    (∀ (Inv : Type) (ms : List (String × BMethod Inv)) (rv : String → Inv → List String)
       (u v : String),
      ((u, v) ∈ (build_call_graph ms rv).edges ↔ v ∈ (build_call_graph ms rv).calls u)
      ∧ ((u, v) ∈ (build_call_graph ms rv).edges ↔ u ∈ (build_call_graph ms rv).called_by v))
    ∧ ∀ (data : CacheData) (u v : String),
        ((u, v) ∈ (load_from_cache_data data).graph_edges ↔
          v ∈ callsOfL (load_from_cache_data data).methods u)
        ∧ ((u, v) ∈ (load_from_cache_data data).graph_edges ↔
          u ∈ calledByOfL (load_from_cache_data data).methods v) := by
  constructor
  · intro Inv ms rv u v
    have hinit : CGConsistent (cgInit (ms.map Prod.fst)) := by
      intro u2 v2
      constructor <;> simp [cgInit]
    exact cgFold_consistent (cgEvents ms rv) _ hinit u v
  · intro data u v
    have hnil : ∀ k m, alookup k (loadPair data).2 = some m →
        m.calls = [] ∧ m.called_by = [] := by
      apply loadFold_calls_nil
      intro k m hm
      exact Option.noConfusion hm
    have hval : ∀ e ∈ loadEdges data,
        (alookup e.1 (loadPair data).2).isSome ∧ (alookup e.2 (loadPair data).2).isSome := by
      intro e he
      have h1 : e ∈ loadValidEdges data := (dedupEdges_mem _ e).1 he
      have h2 := of_decide_eq_true (List.mem_filter.1 h1).2
      exact ⟨(mem_keys_iff_isSome _ _).1 h2.1, (mem_keys_iff_isSome _ _).1 h2.2⟩
    constructor
    · show (u, v) ∈ loadEdges data ↔
        v ∈ callsOfL ((loadEdges data).foldl rebuildStep (loadPair data).2) u
      rw [callsOfL_rebuildFold (loadEdges data) (loadPair data).2 hval u v]
      have h0 := (callsOfL_of_nil (loadPair data).2 hnil u).1
      rw [h0]
      simp
    · show (u, v) ∈ loadEdges data ↔
        u ∈ calledByOfL ((loadEdges data).foldl rebuildStep (loadPair data).2) v
      rw [calledByOfL_rebuildFold (loadEdges data) (loadPair data).2 hval v u]
      have h0 := (callsOfL_of_nil (loadPair data).2 hnil v).2
      rw [h0]
      simp

/-- Closed instance of C10 at the concrete one-method build. -/
theorem C10_call_lists_consistent_witness :
    (("A.f()", "A.f()") ∈ (build_call_graph cg0ms cg0rv).edges ↔
      "A.f()" ∈ (build_call_graph cg0ms cg0rv).calls "A.f()")
    ∧ (("A.f()", "A.f()") ∈ (build_call_graph cg0ms cg0rv).edges ↔
      "A.f()" ∈ (build_call_graph cg0ms cg0rv).called_by "A.f()") :=
  C10_call_lists_consistent.1 Unit cg0ms cg0rv "A.f()" "A.f()"

/-! ### Claim C7: per-file parse-failure isolation -/

/-- One file's effect on the batch state, factored per store. -/
theorem parse_java_file_spec (oracle : String → ParseOutcome) (st : BatchState)
    (path : String) :
    (parse_java_file oracle st path).parse_errors
        = st.parse_errors ++ fileErrorEntries oracle path
    ∧ (parse_java_file oracle st path).components
        = (fileComponentContribs oracle path).foldl (fun a kc => dictSet a kc.1 kc.2)
            st.components := by
  unfold parse_java_file fileErrorEntries fileComponentContribs
  cases oracle path <;> simp

/-- C7: the sequential batch is total (never aborts): its error list is the
starting list followed by each file's own entries in order — a file the
parser rejects contributes exactly one `(path, kind at Lline: message)`
entry — and its component registrations accumulate over every file
independently of any earlier failure, so processing always continues with
the next file. -/
theorem C7_parse_failures_isolated :
    ∀ (oracle : String → ParseOutcome) (st : BatchState) (files : List String),
      (parse_java_files_sequential oracle st files).parse_errors
          = st.parse_errors ++ files.flatMap (fileErrorEntries oracle)
      ∧ (parse_java_files_sequential oracle st files).components
          = files.foldl (fun acc p =>
              (fileComponentContribs oracle p).foldl (fun a kc => dictSet a kc.1 kc.2) acc)
              st.components
      ∧ (∀ path kind line msg, oracle path = .rejected kind line msg →
          fileErrorEntries oracle path
            = [(path, kind ++ " at L" ++ lineStr line ++ ": " ++ takeStr 150 msg)]) := by
  intro oracle st files
  refine ⟨?_, ?_, ?_⟩
  · induction files generalizing st with
    | nil => simp [parse_java_files_sequential]
    | cons f rest ih =>
      unfold parse_java_files_sequential at ih ⊢
      rw [List.foldl_cons, ih (parse_java_file oracle st f),
        (parse_java_file_spec oracle st f).1, List.flatMap_cons, List.append_assoc]
  · induction files generalizing st with
    | nil => simp [parse_java_files_sequential]
    | cons f rest ih =>
      unfold parse_java_files_sequential at ih ⊢
      rw [List.foldl_cons, ih (parse_java_file oracle st f), List.foldl_cons,
        (parse_java_file_spec oracle st f).2]
  · intro path kind line msg h
    unfold fileErrorEntries
    rw [h]

/-- An oracle rejecting every file with a syntax error at line 3. -/
def c7oracle : String → ParseOutcome :=
  fun _ => .rejected "JavaSyntaxError" (some 3) "bad token"

/-- An empty starting batch state. -/
def c7st : BatchState := { components := [], methods := [], parse_errors := [] }

/-- Closed instance of C7: the recorded entry for one rejected file. -/
theorem C7_parse_failures_isolated_witness :
    fileErrorEntries c7oracle "/a.java"
      = [("/a.java", "JavaSyntaxError" ++ " at L" ++ lineStr (some 3) ++ ": "
            ++ takeStr 150 "bad token")] :=
  (C7_parse_failures_isolated c7oracle c7st []).2.2 "/a.java" "JavaSyntaxError" (some 3)
    "bad token" rfl

/-! ### Claim C8: method-flow key resolution -/

/-- C8: the query resolution is a total function (the embedding returns a
result value, never raising): an exact store hit is used directly with its
own key; otherwise the case-insensitive containment candidates decide the
outcome — none yields the not-found result, exactly one is used with its
canonical key, and two or more yield the explicit `multiple_matches` list
of the candidate methods rather than an error. -/
theorem C8_method_flow_resolution :
    ∀ (methods : List (String × MethodRec)) (key : String),
      (∀ m, alookup key methods = some m →
        analyze_method_flow_resolve methods key = .found key m)
      ∧ (alookup key methods = none →
          ((methods.filter fun km => substrOf (strLower key) (strLower km.1)) = [] →
              analyze_method_flow_resolve methods key = .notFound)
          ∧ (∀ c, (methods.filter fun km => substrOf (strLower key) (strLower km.1)) = [c] →
              analyze_method_flow_resolve methods key = .found c.1 c.2)
          ∧ (∀ c c2 rest,
              (methods.filter fun km => substrOf (strLower key) (strLower km.1))
                  = c :: c2 :: rest →
              analyze_method_flow_resolve methods key
                = .multipleMatches ((c :: c2 :: rest).map Prod.snd))) := by
  intro methods key
  constructor
  · intro m hm
    unfold analyze_method_flow_resolve
    rw [hm]
  · intro hn
    unfold analyze_method_flow_resolve
    rw [hn]
    refine ⟨?_, ?_, ?_⟩
    · intro hf
      rw [hf]
    · intro c hf
      rw [hf]
    · intro c c2 rest hf
      rw [hf]

/-- A method record skeleton (used in concrete scenarios). -/
def mkMethodRec (name sig pfqn pname : String) (params : List String) : MethodRec :=
  { name := name, signature := sig, parent_fqn := pfqn, parent_name := pname,
    annotations := [], modifiers := [], return_type := none, parameters := params,
    exceptions := [], start_line := 0, end_line := 0, calls := [], called_by := [] }

/-- A one-method store for instantiating C8. -/
def c8methods : List (String × MethodRec) :=
  [("p.C.f()", mkMethodRec "f" "()" "p.C" "C" [])]

/-- Closed instance of C8: an exact key hit is used directly. -/
theorem C8_method_flow_resolution_witness :
    analyze_method_flow_resolve c8methods "p.C.f()"
      = .found "p.C.f()" (mkMethodRec "f" "()" "p.C" "C" []) :=
  (C8_method_flow_resolution c8methods "p.C.f()").1 (mkMethodRec "f" "()" "p.C" "C" [])
    (by decide)

/-! ### Claim C6: inheritance-aware hierarchy search -/

/-- Appending a fresh element preserves duplicate-freeness. -/
theorem nodup_append_single {α : Type} (l : List α) (a : α) (h : l.Nodup) (ha : a ∉ l) :
    (l ++ [a]).Nodup :=
  List.nodup_append.2 ⟨h, List.nodup_singleton _,
    fun _ hx hxs => ha ((List.mem_singleton.1 hxs) ▸ hx)⟩

/-- Membership through the set-style insertion fold used for `matches`. -/
theorem foldInsertStr_mem : ∀ (l acc : List String) (k : String),
    k ∈ l.foldl (fun acc k => if k ∈ acc then acc else acc ++ [k]) acc ↔
      k ∈ acc ∨ k ∈ l := by
  intro l
  induction l with
  | nil => simp
  | cons x rest ih =>
    intro acc k
    rw [List.foldl_cons, ih]
    by_cases hx : x ∈ acc
    · rw [if_pos hx]
      simp only [List.mem_cons]
      constructor
      · rintro (h | h)
        · exact Or.inl h
        · exact Or.inr (Or.inr h)
      · rintro (h | rfl | h)
        · exact Or.inl h
        · exact Or.inl hx
        · exact Or.inr h
    · rw [if_neg hx]
      simp only [List.mem_append, List.mem_singleton, List.mem_cons]
      tauto

/-- Pushing one visited FQN's matches into the accumulator preserves the
"accumulator = all matches over visited" characterization. -/
theorem hierHits_step (methods : List (String × MethodRec)) (mname : String) (argc : Int)
    (visited hits : List String) (fqn : String)
    (h2 : ∀ k, k ∈ hits ↔ ∃ f ∈ visited, k ∈ hier_matches_at methods f mname argc) :
    ∀ k, k ∈ (hier_matches_at methods fqn mname argc).foldl
        (fun acc k => if k ∈ acc then acc else acc ++ [k]) hits ↔
      ∃ f ∈ visited ++ [fqn], k ∈ hier_matches_at methods f mname argc := by
  intro k
  rw [foldInsertStr_mem, h2]
  constructor
  · rintro (⟨f, hf, hk⟩ | hk)
    · exact ⟨f, List.mem_append_left _ hf, hk⟩
    · exact ⟨fqn, List.mem_append_right _ (List.mem_singleton.2 rfl), hk⟩
  · rintro ⟨f, hf, hk⟩
    rcases List.mem_append.1 hf with h | h
    · exact Or.inl ⟨f, h, hk⟩
    · rw [List.mem_singleton.1 h] at hk
      exact Or.inr hk

/-- The BFS loop invariant: the visit order never repeats an FQN, and the
match accumulator holds exactly the name/arity matches of the visited
FQNs — regardless of fuel, queue contents, or the Object-fallback
enqueues. -/
theorem hierLoop_spec (components : List (String × Component))
    (methods : List (String × MethodRec)) (mname : String) (argc : Int) :
    ∀ (fuel : Nat) (queue visited hits : List String),
      visited.Nodup →
      (∀ k, k ∈ hits ↔ ∃ f ∈ visited, k ∈ hier_matches_at methods f mname argc) →
      (hierLoop components methods mname argc fuel queue visited hits).1.Nodup
      ∧ ∀ k, k ∈ (hierLoop components methods mname argc fuel queue visited hits).2 ↔
          ∃ f ∈ (hierLoop components methods mname argc fuel queue visited hits).1,
            k ∈ hier_matches_at methods f mname argc := by
  intro fuel
  induction fuel with
  | zero =>
    intro queue visited hits h1 h2
    exact ⟨h1, h2⟩
  | succ fuel ih =>
    intro queue visited hits h1 h2
    match queue with
    | [] => exact ⟨h1, h2⟩
    | fqn :: queue' =>
      simp only [hierLoop]
      split
      · exact ih queue' visited hits h1 h2
      · next hskip =>
        have hnotmem : fqn ∉ visited := fun hm => hskip (Or.inr hm)
        have h1' := nodup_append_single visited fqn h1 hnotmem
        have h2' := hierHits_step methods mname argc visited hits fqn h2
        split
        · exact ih _ _ _ h1' h2'
        · split
          · exact ih _ _ _ h1' h2'
          · exact ih _ _ _ h1' h2'

/-- The component store of the C6 scenario: `class A extends x.Missing`
(the supertype is external, so it resolves to no component) and, vendored
somewhere in the tree, a parsed `java.lang.Object` source declaring
`toString()`. -/
def c6comps : List (String × Component) :=
  [("A", { mkComponent "A" "" "A" [] with extends_ := some ["x.Missing"] })]

/-- The method store of the C6 scenario. -/
def c6methods : List (String × MethodRec) :=
  [("java.lang.Object.toString()", mkMethodRec "toString" "()" "java.lang.Object" "Object" [])]

/-- C6 counterexample: looking up `toString` with 0 arguments from target
`A`, the claim's search space — the resolved `extends`/`implements` chain
from `A` — is `[A, x.Missing]` and holds no match, so the claim requires an
empty result; but the implemented search, upon dequeuing the unknown FQN
`x.Missing` with no match found, additionally enqueues `java.lang.Object`
and returns its `toString()` key, a method outside the claimed chain. -/
theorem C6_counterexample :
    find_method_in_hierarchy c6comps c6methods "A" "toString" 0
        = ["java.lang.Object.toString()"]
    ∧ chainClosureSpec c6comps (hierFuel c6comps) ["A"] [] = ["A", "x.Missing"]
    ∧ hier_matches_at c6methods "A" "toString" 0 = []
    ∧ hier_matches_at c6methods "x.Missing" "toString" 0 = [] := by
  exact ⟨by decide, by decide, by decide, by decide⟩

/-- C6 (amended): the method lookup is a breadth-first walk from the target
FQN over the resolved `extends`/`implements` chain *extended by a root-type
fallback* — dequeuing an FQN that is unknown to the store (or a `java.*`
FQN other than `java.lang.Object`) while no match has been found enqueues
`java.lang.Object` once. Each FQN is visited at most once; the collected
matches are exactly the methods of visited FQNs whose name equals the
member name and whose parameter count equals the known argument count
(`-1` accepts any); when any such match exists it is returned as is, when
none exists at most a standard `java.lang.Object` method key already
present in the store (per the fixed name/arity table, with Object visited)
can be returned; and an invocation whose resolution returns no key
contributes no call-graph edge — every edge's target was returned by the
resolver for some invocation of its source method. -/
theorem C6_amended_hierarchy_search :
    (∀ (components : List (String × Component)) (methods : List (String × MethodRec))
       (start mname : String) (argc : Int) (vis hits : List String),
      hierLoop components methods mname argc (hierFuel components) [start] [] []
          = (vis, hits) →
      vis.Nodup
      ∧ (∀ k, k ∈ hits ↔ ∃ f ∈ vis, k ∈ hier_matches_at methods f mname argc)
      ∧ (hits ≠ [] → find_method_in_hierarchy components methods start mname argc = hits)
      ∧ (hits = [] → ∀ k ∈ find_method_in_hierarchy components methods start mname argc,
          objTableLookup mname argc = some k ∧ (alookup k methods).isSome = true
          ∧ "java.lang.Object" ∈ vis))
    ∧ (∀ (Inv : Type) (bms : List (String × BMethod Inv))
         (rv : String → Inv → List String),
        ∀ e ∈ (build_call_graph bms rv).edges,
          ∃ km ∈ bms, ∃ inv ∈ km.2.invocations, e.1 = km.1 ∧ e.2 ∈ rv km.1 inv) := by
  constructor
  · intro components methods start mname argc vis hits heq
    have hbase : ∀ k : String, k ∈ ([] : List String) ↔
        ∃ f ∈ ([] : List String), k ∈ hier_matches_at methods f mname argc := by
      simp
    have hspec := hierLoop_spec components methods mname argc (hierFuel components)
      [start] [] [] List.nodup_nil hbase
    rw [heq] at hspec
    refine ⟨hspec.1, hspec.2, ?_, ?_⟩
    · intro hne
      unfold find_method_in_hierarchy
      rw [heq]
      rw [if_neg (fun hc => hne hc.1)]
    · intro hnil
      unfold find_method_in_hierarchy
      rw [heq]
      by_cases hobj : "java.lang.Object" ∈ vis
      · rw [if_pos ⟨hnil, hobj⟩]
        cases hot : objTableLookup mname argc with
        | none => simp
        | some k0 =>
          dsimp only
          by_cases hks : (alookup k0 methods).isSome = true
          · rw [if_pos hks]
            intro k hk
            rw [List.mem_singleton.1 hk]
            exact ⟨rfl, hks, hobj⟩
          · rw [if_neg hks]
            intro k hk
            exact absurd hk (List.not_mem_nil k)
      · rw [if_neg (fun hc => hobj hc.2)]
        rw [hnil]
        intro k hk
        exact absurd hk (List.not_mem_nil k)
  · intro Inv bms rv e he
    rcases cgFold_edge_origin (cgEvents bms rv) (cgInit (bms.map Prod.fst)) e he with h | h
    · exact absurd h (List.not_mem_nil e)
    · exact cgEvents_origin bms rv e h

/-- Closed instance of the amended C6 at the concrete scenario. -/
theorem C6_amended_hierarchy_search_witness :
    find_method_in_hierarchy c6comps c6methods "A" "toString" 0
      = ["java.lang.Object.toString()"] :=
  (C6_amended_hierarchy_search.1 c6comps c6methods "A" "toString" 0
      ["A", "x.Missing", "java.lang.Object"] ["java.lang.Object.toString()"]
      (by decide)).2.2.1 (by decide)

end SpringExplorer
